import Mathlib

/-!
Verification of the cruciverbal crossword library.

This file gives a shallow embedding, in Lean, of the Rust sources of the
repository and proves the frozen claims about them:

* `src/core/src/direction.rs`, `grid.rs`, `clue.rs`, `crossword.rs` — the
  core data model (cells, grids, clues, crossword assembly);
* `src/core/src/generator.rs` — the backtracking crossword generator;
* `src/tui/src/views/game/grid.rs` — the clue-numbering / word-membership
  indexer (`PuzzleGrid::from_solution`).

Rust `usize` values are modelled as `Nat`, `i32` as `Int` (with the original
casts mirrored where the source casts between them), `char` as `Char`,
`String` answers/words as `List Char` where they are indexed per character,
fallible functions returning `Result` as `Except`, and in-place mutation as
explicit state passing.  `HashSet`/`HashMap` are modelled as lists with
membership/lookup semantics.  `std::collections::hash_map::DefaultHasher`
(used only to derive a numeric seed from the grid dimensions) is modelled by
an explicit `seed : Nat` parameter, so every theorem quantifying over `seed`
covers the actual hash value among all others.
-/

namespace Cruciverbal

/-- `Direction` from `src/core/src/direction.rs`. -/
inductive Direction where
  | Across
  | Down
deriving DecidableEq, Repr

/-- `Direction::delta` from `src/core/src/direction.rs`. -/
def Direction.delta : Direction → Int × Int
  | .Across => (0, 1)
  | .Down => (1, 0)

/-- `Cell` from `src/core/src/grid.rs`. -/
inductive Cell where
  | Empty
  | Blocked
  | Letter (correct : Char) (user_input : Option Char) (number : Option Nat)
deriving DecidableEq, Repr

/-- `Grid` from `src/core/src/grid.rs`: a width, a height and a row-major
nested vector of cells. -/
structure Grid where
  width : Nat
  height : Nat
  cells : List (List Cell)
deriving DecidableEq, Repr

/-- `Grid::new`. -/
def Grid.new (width height : Nat) : Grid :=
  { width := width, height := height,
    cells := List.replicate height (List.replicate width Cell.Empty) }

/-- `Grid::get_cell`: `self.cells.get(row)?.get(col)`. -/
def Grid.get_cell (g : Grid) (row col : Nat) : Option Cell :=
  (g.cells.get? row).bind (fun r => r.get? col)

/-- In-bounds write into the nested cell vector (the `self.cells[row][col] = cell`
assignment inside `Grid::set_cell`). -/
def Grid.setL (g : Grid) (row col : Nat) (cell : Cell) : Grid :=
  { g with cells := g.cells.set row ((g.cells.getD row []).set col cell) }

/-- `Grid::set_cell`: bounds-checked write, `Err` when out of bounds. -/
def Grid.set_cell (g : Grid) (row col : Nat) (cell : Cell) : Except String Grid :=
  if g.height ≤ row ∨ g.width ≤ col then .error "Position out of bounds"
  else .ok (g.setL row col cell)

/-- The `let _ = self.grid.set_cell(...)` pattern of the generator: perform the
write, discarding an out-of-bounds error (which leaves the grid unchanged). -/
def Grid.set_cellD (g : Grid) (row col : Nat) (cell : Cell) : Grid :=
  match g.set_cell row col cell with
  | .ok g' => g'
  | .error _ => g

/-- The per-cell test inside `Grid::is_complete`: a `Letter` cell passes iff
its `user_input` is present and equals `correct`; other cells always pass. -/
def Cell.complete_ok : Cell → Bool
  | Cell.Letter correct user_input _ => !(user_input.isNone || !(user_input == some correct))
  | _ => true

/-- `Grid::is_complete` from `src/core/src/grid.rs`. -/
def Grid.is_complete (g : Grid) : Bool :=
  g.cells.all (fun row => row.all Cell.complete_ok)

/-- `Clue` from `src/core/src/clue.rs`; the answer string is modelled as its
character sequence. -/
structure Clue where
  number : Nat
  direction : Direction
  text : String
  answer : List Char
  row : Nat
  col : Nat
deriving DecidableEq, Repr

/-- `Clue::new` (uppercases the answer). -/
def Clue.new (number : Nat) (direction : Direction) (text : String)
    (answer : List Char) (row col : Nat) : Clue :=
  { number := number, direction := direction, text := text,
    answer := answer.map Char.toUpper, row := row, col := col }

instance : Inhabited Clue :=
  ⟨Clue.new 0 Direction.Across "" [] 0 0⟩

/-- `Clue::length`. -/
def Clue.length (c : Clue) : Nat :=
  c.answer.length

/-- `Clue::positions`: start plus `direction.delta()` times the index, with the
source's `usize → i32 → usize` casts mirrored. -/
def Clue.positions (c : Clue) : List (Nat × Nat) :=
  (List.range c.length).map (fun i =>
    (((c.row : Int) + c.direction.delta.1 * (i : Int)).toNat,
     ((c.col : Int) + c.direction.delta.2 * (i : Int)).toNat))

/-- `Crossword` from `src/core/src/crossword.rs`. -/
structure Crossword where
  title : String
  author : String
  grid : Grid
  clues : List Clue
deriving DecidableEq, Repr

/-- `Crossword::new`. -/
def Crossword.new (title author : String) (width height : Nat) : Crossword :=
  { title := title, author := author, grid := Grid.new width height, clues := [] }

/-- `Crossword::validate_clue`: empty answers and positions beyond the grid's
`height`/`width` are rejected. -/
def Crossword.validate_clue (cw : Crossword) (clue : Clue) : Except String Unit :=
  if clue.answer = [] then .error "Clue answer cannot be empty"
  else if clue.positions.any (fun p => cw.grid.height ≤ p.1 ∨ cw.grid.width ≤ p.2) then
    .error "Clue extends beyond grid bounds"
  else .ok ()

/-- The per-position loop body of `Crossword::add_clue`, iterating over the
enumerated positions of the clue.  On failure it returns the partially
mutated grid together with the error, mirroring the in-place mutation of the
Rust loop (which returns early, leaving earlier writes in place). -/
def addClueLoop (clue : Clue) (g : Grid) :
    List (Nat × (Nat × Nat)) → Except (Grid × String) Grid
  | [] => .ok g
  | (i, rc) :: rest =>
    let correct_char := clue.answer.getD i 'A'
    let number : Option Nat := if i = 0 then some clue.number else none
    match g.get_cell rc.1 rc.2 with
    | none => .error (g, "Position is out of bounds")
    | some Cell.Empty =>
        addClueLoop clue (g.setL rc.1 rc.2 (Cell.Letter correct_char none number)) rest
    | some (Cell.Letter correct user_input cell_number) =>
        if correct ≠ correct_char then .error (g, "Letter conflict")
        else if i = 0 ∧ cell_number = none then
          addClueLoop clue (g.setL rc.1 rc.2 (Cell.Letter correct user_input (some clue.number))) rest
        else addClueLoop clue g rest
    | some Cell.Blocked => .error (g, "Cannot place letter on blocked cell")

/-- `Crossword::add_clue`: validate, write each position, and only on success
append the clue to the clue list.  The returned crossword is the state of
`self` after the call (partially mutated on mid-loop failure, exactly as in
the source), paired with the `Result`. -/
def Crossword.add_clue (cw : Crossword) (clue : Clue) : Crossword × Except String Unit :=
  match cw.validate_clue clue with
  | .error e => (cw, .error e)
  | .ok _ =>
    match addClueLoop clue cw.grid clue.positions.enum with
    | .error ge => ({ cw with grid := ge.1 }, .error ge.2)
    | .ok g' => ({ cw with grid := g', clues := cw.clues ++ [clue] }, .ok ())

/-! ### Basic grid read/write lemmas -/

theorem get_cell_setL (g : Grid) (row col : Nat) (cell : Cell) (r c : Nat) :
    (g.setL row col cell).get_cell r c =
      if r = row ∧ c = col then (g.get_cell r c).map (fun _ => cell)
      else g.get_cell r c := by
  by_cases hr : r = row
  · by_cases hc : c = col
    · subst hr; subst hc
      rw [if_pos ⟨rfl, rfl⟩]
      unfold Grid.setL Grid.get_cell
      simp only
      rw [List.get?_set, if_pos rfl]
      cases hg : g.cells.get? r with
      | none => simp
      | some oldrow =>
        have hgetd : g.cells.getD r [] = oldrow := by
          unfold List.getD
          rw [hg]
          rfl
        rw [hgetd]
        simp only [Option.map_eq_map, Option.map_some', Option.some_bind]
        rw [List.get?_set, if_pos rfl]
        cases oldrow.get? c <;> simp
    · subst hr
      rw [if_neg (by intro h; exact hc h.2)]
      unfold Grid.setL Grid.get_cell
      simp only
      rw [List.get?_set, if_pos rfl]
      cases hg : g.cells.get? r with
      | none => simp
      | some oldrow =>
        have hgetd : g.cells.getD r [] = oldrow := by
          unfold List.getD
          rw [hg]
          rfl
        rw [hgetd]
        simp only [Option.map_eq_map, Option.map_some', Option.some_bind]
        rw [List.get?_set, if_neg (by intro h; exact hc h.symm)]
  · rw [if_neg (by intro h; exact hr h.1)]
    unfold Grid.setL Grid.get_cell
    simp only
    rw [List.get?_set, if_neg (by intro h; exact hr h.symm)]

/-- The current grid carried by an `addClueLoop` outcome (the state of the
mutated grid whether the loop succeeded or returned early with an error). -/
def resGrid : Except (Grid × String) Grid → Grid
  | .ok g => g
  | .error ge => ge.1

/-- `g'` keeps every `Blocked` cell of `g` blocked and keeps the `correct`
character of every `Letter` cell of `g`. -/
def preservesCells (g g' : Grid) : Prop :=
  ∀ r c, (g.get_cell r c = some Cell.Blocked → g'.get_cell r c = some Cell.Blocked) ∧
    (∀ ch ui n, g.get_cell r c = some (Cell.Letter ch ui n) →
      ∃ ui' n', g'.get_cell r c = some (Cell.Letter ch ui' n'))

theorem preservesCells_refl (g : Grid) : preservesCells g g := by
  intro r c
  exact ⟨fun h => h, fun ch ui n h => ⟨ui, n, h⟩⟩

theorem preservesCells_trans {g1 g2 g3 : Grid}
    (h12 : preservesCells g1 g2) (h23 : preservesCells g2 g3) : preservesCells g1 g3 := by
  intro r c
  constructor
  · intro h
    exact (h23 r c).1 ((h12 r c).1 h)
  · intro ch ui n h
    obtain ⟨ui', n', h'⟩ := (h12 r c).2 ch ui n h
    exact (h23 r c).2 ch ui' n' h'

/-- One loop step of `add_clue` never unblocks a cell and never changes the
`correct` character of a `Letter` cell, whatever the outcome. -/
theorem addClueLoop_preserves (clue : Clue) :
    ∀ (L : List (Nat × (Nat × Nat))) (g : Grid),
      preservesCells g (resGrid (addClueLoop clue g L)) := by
  intro L
  induction L with
  | nil => intro g; exact preservesCells_refl g
  | cons head rest ih =>
    intro g
    obtain ⟨i, rc⟩ := head
    unfold addClueLoop
    cases hcell : g.get_cell rc.1 rc.2 with
    | none => exact preservesCells_refl g
    | some cell =>
      cases cell with
      | Empty =>
        simp only
        refine preservesCells_trans (?_ : preservesCells g (g.setL rc.1 rc.2
          (Cell.Letter (clue.answer.getD i 'A') none
            (if i = 0 then some clue.number else none)))) (ih _)
        intro r c
        rw [get_cell_setL]
        split
        · rename_i hrc
          obtain ⟨h1, h2⟩ := hrc
          subst h1; subst h2
          rw [hcell]
          exact ⟨fun h => by exact absurd h (by simp), fun ch ui n h => by exact absurd h (by simp)⟩
        · exact ⟨fun h => h, fun ch ui n h => ⟨ui, n, h⟩⟩
      | Blocked =>
        simp only
        exact preservesCells_refl g
      | Letter correct user_input cell_number =>
        simp only
        by_cases hne : correct ≠ clue.answer.getD i 'A'
        · rw [if_pos hne]
          exact preservesCells_refl g
        · rw [if_neg hne]
          push_neg at hne
          by_cases hwr : i = 0 ∧ cell_number = none
          · rw [if_pos hwr]
            refine preservesCells_trans (?_ : preservesCells g (g.setL rc.1 rc.2
              (Cell.Letter correct user_input (some clue.number)))) (ih _)
            intro r c
            rw [get_cell_setL]
            split
            · rename_i hrc
              obtain ⟨h1, h2⟩ := hrc
              subst h1; subst h2
              rw [hcell]
              refine ⟨fun h => by exact absurd h (by simp), fun ch ui n h => ?_⟩
              injection h with hh
              injection hh with e1 e2 e3
              exact ⟨user_input, some clue.number, by rw [e1]; simp⟩
            · exact ⟨fun h => h, fun ch ui n h => ⟨ui, n, h⟩⟩
          · rw [if_neg hwr]
            exact ih g

/-- If the loop succeeds, every listed position ends as a `Letter` cell whose
`correct` character is the answer character at that index. -/
theorem addClueLoop_ok_chars (clue : Clue) :
    ∀ (L : List (Nat × (Nat × Nat))) (g g' : Grid), addClueLoop clue g L = .ok g' →
      ∀ ip ∈ L, ∃ ui n,
        g'.get_cell ip.2.1 ip.2.2 = some (Cell.Letter (clue.answer.getD ip.1 'A') ui n) := by
  intro L
  induction L with
  | nil => intro g g' _ ip hip; exact absurd hip (List.not_mem_nil ip)
  | cons head rest ih =>
    intro g g' hok ip hip
    obtain ⟨i, rc⟩ := head
    unfold addClueLoop at hok
    cases hcell : g.get_cell rc.1 rc.2 with
    | none => rw [hcell] at hok; exact Except.noConfusion hok
    | some cell =>
      rw [hcell] at hok
      cases cell with
      | Blocked => exact Except.noConfusion hok
      | Empty =>
        simp only at hok
        set g1 := g.setL rc.1 rc.2
          (Cell.Letter (clue.answer.getD i 'A') none (if i = 0 then some clue.number else none)) with hg1
        rcases List.mem_cons.mp hip with h | h
        · subst h
          have hcur : g1.get_cell rc.1 rc.2 =
              some (Cell.Letter (clue.answer.getD i 'A') none
                (if i = 0 then some clue.number else none)) := by
            rw [hg1, get_cell_setL, if_pos ⟨rfl, rfl⟩, hcell]
            rfl
          have hpres := addClueLoop_preserves clue rest g1
          rw [hok] at hpres; simp only [resGrid] at hpres
          exact (hpres rc.1 rc.2).2 _ _ _ hcur
        · exact ih g1 g' hok ip h
      | Letter correct user_input cell_number =>
        simp only at hok
        by_cases hne : correct ≠ clue.answer.getD i 'A'
        · rw [if_pos hne] at hok; exact Except.noConfusion hok
        · rw [if_neg hne] at hok
          push_neg at hne
          rcases List.mem_cons.mp hip with h | h
          · subst h
            by_cases hwr : i = 0 ∧ cell_number = none
            · rw [if_pos hwr] at hok
              set g1 := g.setL rc.1 rc.2 (Cell.Letter correct user_input (some clue.number)) with hg1
              have hcur : g1.get_cell rc.1 rc.2 =
                  some (Cell.Letter correct user_input (some clue.number)) := by
                rw [hg1, get_cell_setL, if_pos ⟨rfl, rfl⟩, hcell]
                rfl
              have hpres := addClueLoop_preserves clue rest g1
              rw [hok] at hpres; simp only [resGrid] at hpres
              obtain ⟨ui', n', h'⟩ := (hpres rc.1 rc.2).2 _ _ _ hcur
              exact ⟨ui', n', by rw [h', hne]⟩
            · rw [if_neg hwr] at hok
              have hpres := addClueLoop_preserves clue rest g
              rw [hok] at hpres; simp only [resGrid] at hpres
              obtain ⟨ui', n', h'⟩ := (hpres rc.1 rc.2).2 _ _ _ hcell
              exact ⟨ui', n', by rw [h', hne]⟩
          · by_cases hwr : i = 0 ∧ cell_number = none
            · rw [if_pos hwr] at hok
              exact ih _ g' hok ip h
            · rw [if_neg hwr] at hok
              exact ih g g' hok ip h

/-- A position entry the loop must reject against grid `g`: its cell is
`Blocked`, or holds a `Letter` whose `correct` character differs from the
answer character at the entry's index. -/
def badEntry (clue : Clue) (g : Grid) (ip : Nat × (Nat × Nat)) : Prop :=
  g.get_cell ip.2.1 ip.2.2 = some Cell.Blocked ∨
    ∃ ch ui n, g.get_cell ip.2.1 ip.2.2 = some (Cell.Letter ch ui n) ∧
      ch ≠ clue.answer.getD ip.1 'A'

/-- If some listed entry is bad in the starting grid, the loop returns an
error. -/
theorem addClueLoop_bad_error (clue : Clue) :
    ∀ (L : List (Nat × (Nat × Nat))) (g : Grid),
      (∃ ip ∈ L, badEntry clue g ip) →
      ∃ ge, addClueLoop clue g L = .error ge := by
  intro L
  induction L with
  | nil => intro g ⟨ip, hip, _⟩; exact absurd hip (List.not_mem_nil ip)
  | cons head rest ih =>
    intro g ⟨ip, hip, hbad⟩
    obtain ⟨i, rc⟩ := head
    unfold addClueLoop
    cases hcell : g.get_cell rc.1 rc.2 with
    | none => exact ⟨_, rfl⟩
    | some cell =>
      cases cell with
      | Blocked => exact ⟨_, rfl⟩
      | Empty =>
        simp only
        rcases List.mem_cons.mp hip with h | h
        · subst h
          rcases hbad with hb | ⟨ch, ui, n, hb, _⟩ <;>
            (rw [hcell] at hb; exact absurd hb (by simp))
        · refine ih _ ⟨ip, h, ?_⟩
          rcases hbad with hb | ⟨ch, ui, n, hb, hne⟩
          · left
            rw [get_cell_setL]
            split
            · rename_i hrc
              rw [hrc.1, hrc.2, hcell] at hb
              exact absurd hb (by simp)
            · exact hb
          · right
            refine ⟨ch, ui, n, ?_, hne⟩
            rw [get_cell_setL]
            split
            · rename_i hrc
              rw [hrc.1, hrc.2, hcell] at hb
              exact absurd hb (by simp)
            · exact hb
      | Letter correct user_input cell_number =>
        simp only
        by_cases hne : correct ≠ clue.answer.getD i 'A'
        · rw [if_pos hne]
          exact ⟨_, rfl⟩
        · rw [if_neg hne]
          push_neg at hne
          rcases List.mem_cons.mp hip with h | h
          · subst h
            rcases hbad with hb | ⟨ch, ui, n, hb, hbne⟩
            · rw [hcell] at hb
              exact absurd hb (by simp)
            · rw [hcell] at hb
              injection hb with hb'
              injection hb' with e1 e2 e3
              exact absurd (e1 ▸ hne) hbne
          · have hbad' : ∀ g1 : Grid, g1.get_cell ip.2.1 ip.2.2 = g.get_cell ip.2.1 ip.2.2 ∨
                (ip.2.1 = rc.1 ∧ ip.2.2 = rc.2 ∧
                  g1.get_cell ip.2.1 ip.2.2 =
                    some (Cell.Letter correct user_input (some clue.number))) →
                badEntry clue g1 ip := by
              intro g1 hg1
              rcases hg1 with heq | ⟨h1, h2, heq⟩
              · rcases hbad with hb | ⟨ch, ui, n, hb, hbne⟩
                · exact Or.inl (heq.trans hb)
                · exact Or.inr ⟨ch, ui, n, heq.trans hb, hbne⟩
              · rcases hbad with hb | ⟨ch, ui, n, hb, hbne⟩
                · rw [h1, h2, hcell] at hb
                  exact absurd hb (by simp)
                · rw [h1, h2, hcell] at hb
                  injection hb with hb'
                  injection hb' with e1 e2 e3
                  exact Or.inr ⟨correct, user_input, some clue.number, heq, e1 ▸ hbne⟩
            by_cases hwr : i = 0 ∧ cell_number = none
            · rw [if_pos hwr]
              refine ih _ ⟨ip, h, hbad' _ ?_⟩
              rw [get_cell_setL]
              split
              · rename_i hrc
                right
                exact ⟨hrc.1, hrc.2, by rw [hrc.1, hrc.2, hcell]; rfl⟩
              · exact Or.inl rfl
            · rw [if_neg hwr]
              exact ih g ⟨ip, h, hbad⟩

/-- The two validation checks of `validate_clue` fail exactly on an empty
answer or an out-of-bounds derived position. -/
theorem validate_clue_error_iff (cw : Crossword) (clue : Clue) :
    (∃ e, cw.validate_clue clue = .error e) ↔
      (clue.answer = [] ∨ ∃ p ∈ clue.positions, cw.grid.height ≤ p.1 ∨ cw.grid.width ≤ p.2) := by
  unfold Crossword.validate_clue
  by_cases h1 : clue.answer = []
  · rw [if_pos h1]
    simp [h1]
  · rw [if_neg h1]
    constructor
    · intro ⟨e, he⟩
      split at he
      · right
        rename_i hany
        rw [List.any_eq_true] at hany
        obtain ⟨p, hp, hdec⟩ := hany
        exact ⟨p, hp, of_decide_eq_true hdec⟩
      · exact Except.noConfusion he
    · intro h
      rcases h with h | ⟨p, hp, hple⟩
      · exact absurd h h1
      · have hany : clue.positions.any
            (fun p => decide (cw.grid.height ≤ p.1 ∨ cw.grid.width ≤ p.2)) = true := by
          rw [List.any_eq_true]
          exact ⟨p, hp, decide_eq_true hple⟩
        rw [if_pos hany]
        exact ⟨_, rfl⟩

/-- C4: `Crossword::add_clue` fails on an empty answer, an out-of-bounds
derived position, a letter conflict, or a blocked cell; the empty-answer and
out-of-bounds checks run before any cell is mutated (the crossword is
returned untouched), and on every failure the clue is not appended to the
clue list. -/
theorem C4_add_clue_failure_cases (cw : Crossword) (clue : Clue) :
    ((clue.answer = [] ∨ ∃ p ∈ clue.positions, cw.grid.height ≤ p.1 ∨ cw.grid.width ≤ p.2) →
        (cw.add_clue clue).1 = cw ∧ ∃ e, (cw.add_clue clue).2 = Except.error e)
    ∧ ((∃ ip ∈ clue.positions.enum, badEntry clue cw.grid ip) →
        ∃ e, (cw.add_clue clue).2 = Except.error e)
    ∧ (∀ e, (cw.add_clue clue).2 = Except.error e →
        (cw.add_clue clue).1.clues = cw.clues) := by
  refine ⟨?_, ?_, ?_⟩
  · intro h
    obtain ⟨e, he⟩ := (validate_clue_error_iff cw clue).mpr h
    unfold Crossword.add_clue
    rw [he]
    exact ⟨rfl, e, rfl⟩
  · intro h
    cases hv : cw.validate_clue clue with
    | error e =>
      unfold Crossword.add_clue
      rw [hv]
      exact ⟨e, rfl⟩
    | ok u =>
      obtain ⟨ge, hge⟩ := addClueLoop_bad_error clue clue.positions.enum cw.grid h
      unfold Crossword.add_clue
      rw [hv, hge]
      exact ⟨ge.2, rfl⟩
  · intro e he
    unfold Crossword.add_clue at he ⊢
    cases hv : cw.validate_clue clue with
    | error e' => rfl
    | ok u =>
      cases hl : addClueLoop clue cw.grid clue.positions.enum with
      | error ge => rfl
      | ok g' =>
        rw [hv, hl] at he
        exact Except.noConfusion he

/-- Witness for C4: adding a clue with an empty answer to a fresh 3×3
crossword fails and leaves the crossword untouched. -/
theorem C4_add_clue_failure_cases_witness :
    (Crossword.add_clue (Crossword.new "t" "a" 3 3)
        { number := 1, direction := Direction.Across, text := "x",
          answer := [], row := 0, col := 0 }).1
      = Crossword.new "t" "a" 3 3 ∧
    ∃ e, (Crossword.add_clue (Crossword.new "t" "a" 3 3)
        { number := 1, direction := Direction.Across, text := "x",
          answer := [], row := 0, col := 0 }).2
      = Except.error e :=
  (C4_add_clue_failure_cases _ _).1 (Or.inl rfl)

/-- `Grid::is_complete` spelt as a proposition: every `Letter` cell's
`user_input` equals `some` of its `correct` character. -/
theorem is_complete_iff_aux (cell : Cell) :
    Cell.complete_ok cell = true ↔
      ∀ correct user_input number, cell = Cell.Letter correct user_input number →
        user_input = some correct := by
  cases cell with
  | Empty => simp [Cell.complete_ok]
  | Blocked => simp [Cell.complete_ok]
  | Letter c u n =>
    cases u with
    | none => simp [Cell.complete_ok]
    | some x =>
      constructor
      · intro h c' u' n' he
        injection he with h1 h2 h3
        subst h1; subst h2
        simp [Cell.complete_ok] at h
        simp [h]
      · intro h
        have := h c (some x) n rfl
        injection this with hx
        simp [Cell.complete_ok, hx]

/-- C9: `Grid::is_complete` returns `true` iff every `Letter` cell in the grid
has `user_input` equal to `some` of its `correct` character; any mismatched or
unfilled `Letter` cell makes it `false`, and `Blocked`/`Empty` cells (or a
grid with no `Letter` cells at all) never make a grid incomplete. -/
theorem C9_is_complete_iff (g : Grid) :
    g.is_complete = true ↔
      ∀ row ∈ g.cells, ∀ cell ∈ row,
        ∀ correct user_input number, cell = Cell.Letter correct user_input number →
          user_input = some correct := by
  unfold Grid.is_complete
  rw [List.all_eq_true]
  constructor
  · intro h row hrow cell hcell
    have h1 := h row hrow
    rw [List.all_eq_true] at h1
    exact (is_complete_iff_aux cell).mp (h1 cell hcell)
  · intro h row hrow
    rw [List.all_eq_true]
    intro cell hcell
    exact (is_complete_iff_aux cell).mpr (h row hrow cell hcell)

/-- Witness for C9: a concrete 1×2 grid with one correctly-filled `Letter`
cell and one `Blocked` cell is complete. -/
theorem C9_is_complete_iff_witness :
    Grid.is_complete
      { width := 2, height := 1,
        cells := [[Cell.Letter 'A' (some 'A') (some 1), Cell.Blocked]] } = true :=
  (C9_is_complete_iff _).mpr (by
    intro row hrow cell hcell correct user_input number he
    simp only [List.mem_singleton] at hrow
    subst hrow
    rcases List.mem_pair.mp hcell with h | h <;> subst h
    · injection he with h1 h2 h3
      rw [← h2, ← h1]
    · exact Cell.noConfusion he)

end Cruciverbal

namespace Tui

/-! ### The clue-numbering / word-membership indexer,
from `src/tui/src/views/game/grid.rs` and `cell.rs`. -/

/-- `ClueNoDirection` from `src/tui/src/views/game/cell.rs`. -/
inductive ClueNoDirection where
  | Across (n : Nat)
  | Down (n : Nat)
  | Cross (a d : Nat)
deriving DecidableEq, Repr

/-- `WordIdxDirection` from `src/tui/src/views/game/cell.rs`. -/
inductive WordIdxDirection where
  | Across (i : Nat)
  | Down (i : Nat)
  | Cross (a d : Nat)
deriving DecidableEq, Repr

/-- `PuzzleCellValue` from `src/tui/src/views/game/cell.rs`. -/
inductive PuzzleCellValue where
  | Filled
  | Letter (clue_letter : Char) (user_letter : Option Char)
      (word_idx : WordIdxDirection) (clue_no : ClueNoDirection)
deriving DecidableEq, Repr

/-- `PuzzleCell` from `src/tui/src/views/game/cell.rs`. -/
structure PuzzleCell where
  val : PuzzleCellValue
  is_selected_cell : Bool
  is_selected_word : Bool
deriving DecidableEq, Repr

/-- `PuzzleCell::filled`. -/
def PuzzleCell.filled : PuzzleCell :=
  { val := .Filled, is_selected_cell := false, is_selected_word := false }

/-- `PuzzleCell::valued`. -/
def PuzzleCell.valued (clue_letter : Char) (word_idx : WordIdxDirection)
    (clue_no : ClueNoDirection) : PuzzleCell :=
  { val := .Letter clue_letter none word_idx clue_no,
    is_selected_cell := false, is_selected_word := false }

/-- `PuzzleGrid` from `src/tui/src/views/game/grid.rs`. -/
structure PuzzleGrid where
  cells : List (List PuzzleCell)
deriving DecidableEq, Repr

/-- `PuzzleGrid::new`, with its two `assert!`s (non-empty, rectangular)
modelled as `none` outcomes. -/
def PuzzleGrid.mk? (cells : List (List PuzzleCell)) : Option PuzzleGrid :=
  if cells = [] then none
  else if cells.all (fun row => row.length = (cells.getD 0 []).length) then some { cells := cells }
  else none

/-- The `is_filled` closure of `from_solution`: the character at `(r, c)` is
the blocked marker.  The out-of-range default `'.'` stands in for the Rust
index panic; every use in the algorithm is in bounds for rectangular input. -/
def is_filled (chars : List (List Char)) (r c : Nat) : Bool :=
  (chars.getD r []).getD c '.' = '.'

/-- The `is_letter` closure of `from_solution`: in bounds and not filled. -/
def is_letter (chars : List (List Char)) (height width : Nat) (r c : Int) : Bool :=
  decide (0 ≤ r) && decide (0 ≤ c) &&
    decide (r < (height : Int)) && decide (c < (width : Int)) &&
    !(is_filled chars r.toNat c.toNat)

/-- The pass-1 start-of-across-word test: no letter to the left AND a letter
to the right. -/
def starts_across (chars : List (List Char)) (height width : Nat) (row col : Nat) : Bool :=
  !(is_letter chars height width (row : Int) ((col : Int) - 1)) &&
    is_letter chars height width (row : Int) ((col : Int) + 1)

/-- The pass-1 start-of-down-word test: no letter above AND a letter below. -/
def starts_down (chars : List (List Char)) (height width : Nat) (row col : Nat) : Bool :=
  !(is_letter chars height width ((row : Int) - 1) (col : Int)) &&
    is_letter chars height width ((row : Int) + 1) (col : Int)

/-- The state of pass 1: the `across_clue_at` / `down_clue_at` arrays (as
position-indexed partial maps) and the `current_number` counter. -/
structure Numbering where
  across_clue_at : Nat × Nat → Option Nat
  down_clue_at : Nat × Nat → Option Nat
  current_number : Nat

/-- Array element assignment `arr[rc] = some v` for the pass-1 maps. -/
def updateAt (f : Nat × Nat → Option Nat) (p : Nat × Nat) (v : Nat) : Nat × Nat → Option Nat :=
  fun q => if q = p then some v else f q

/-- The row-major enumeration `for row in 0..height { for col in 0..width }`. -/
def rowMajor (height width : Nat) : List (Nat × Nat) :=
  (List.range height).flatMap (fun r => (List.range width).map (fun c => (r, c)))

/-- One iteration of pass 1 of `from_solution` at cell `rc`. -/
def pass1Step (chars : List (List Char)) (height width : Nat)
    (st : Numbering) (rc : Nat × Nat) : Numbering :=
  if is_filled chars rc.1 rc.2 then st
  else
    let sa := starts_across chars height width rc.1 rc.2
    let sd := starts_down chars height width rc.1 rc.2
    if sa || sd then
      { across_clue_at :=
          if sa then updateAt st.across_clue_at rc st.current_number else st.across_clue_at,
        down_clue_at :=
          if sd then updateAt st.down_clue_at rc st.current_number else st.down_clue_at,
        current_number := st.current_number + 1 }
    else st

/-- Pass 1 of `from_solution`: number the word-start cells in row-major
order, starting the counter at 1. -/
def pass1 (chars : List (List Char)) (height width : Nat) : Numbering :=
  (rowMajor height width).foldl (pass1Step chars height width)
    { across_clue_at := fun _ => none, down_clue_at := fun _ => none, current_number := 1 }

/-- The pass-2 scan-left loop: `while start > 0 && !is_filled(row, start-1)`. -/
def scanLeftStart (chars : List (List Char)) (row : Nat) : Nat → Nat
  | 0 => 0
  | s + 1 => if !(is_filled chars row s) then scanLeftStart chars row s else s + 1

/-- The pass-2 scan-up loop: `while start > 0 && !is_filled(start-1, col)`. -/
def scanUpStart (chars : List (List Char)) (col : Nat) : Nat → Nat
  | 0 => 0
  | s + 1 => if !(is_filled chars s col) then scanUpStart chars col s else s + 1

/-- Pass 2 of `from_solution` at one cell: build the `PuzzleCell`, or `none`
for the `panic!("Isolated cell")` branch. -/
def classifyCell (chars : List (List Char)) (height width : Nat) (nb : Numbering)
    (row col : Nat) : Option PuzzleCell :=
  if is_filled chars row col then some PuzzleCell.filled
  else
    let clue_letter := (chars.getD row []).getD col '.'
    let across_info : Option (Nat × Nat) :=
      if is_letter chars height width (row : Int) ((col : Int) - 1) ||
          is_letter chars height width (row : Int) ((col : Int) + 1) then
        (nb.across_clue_at (row, scanLeftStart chars row col)).map
          (fun n => (n, col - scanLeftStart chars row col))
      else none
    let down_info : Option (Nat × Nat) :=
      if is_letter chars height width ((row : Int) - 1) (col : Int) ||
          is_letter chars height width ((row : Int) + 1) (col : Int) then
        (nb.down_clue_at (scanUpStart chars col row, col)).map
          (fun n => (n, row - scanUpStart chars col row))
      else none
    match across_info, down_info with
    | some ai, some di =>
        some (PuzzleCell.valued clue_letter (.Cross ai.2 di.2) (.Cross ai.1 di.1))
    | some ai, none => some (PuzzleCell.valued clue_letter (.Across ai.2) (.Across ai.1))
    | none, some di => some (PuzzleCell.valued clue_letter (.Down di.2) (.Down di.1))
    | none, none => none

/-- Effectful map over a list in the `Option` monad (the cell-building loops
of pass 2, where `none` models the isolated-cell panic). -/
def optMap (f : α → Option β) : List α → Option (List β)
  | [] => some []
  | a :: l =>
    match f a with
    | none => none
    | some b =>
      match optMap f l with
      | none => none
      | some bs => some (b :: bs)

/-- `PuzzleGrid::from_solution` from `src/tui/src/views/game/grid.rs`.
`none` models the panics (empty solution, isolated cell, ragged rows). -/
def from_solution (solution : List String) : Option PuzzleGrid :=
  if solution.length = 0 then none
  else
    let height := solution.length
    let chars : List (List Char) := solution.map (fun s => s.data)
    let width := (chars.getD 0 []).length
    let nb := pass1 chars height width
    match optMap (fun row =>
        optMap (fun col => classifyCell chars height width nb row col) (List.range width))
        (List.range height) with
    | none => none
    | some cells => PuzzleGrid.mk? cells

/-- C2: on the 3×3 solution `..B / ACE / ..E`, the indexer yields exactly the
classification stated in the spec: (0,2) Down-only number 1 offset 0, (1,0)
Across-only number 2 offset 0, (1,1) Across-only number 2 offset 1, (1,2)
Cross with numbers (across 2, down 1) and offsets (2, 1), (2,2) Down-only
number 1 offset 2, and the four corner-adjacent cells blocked. -/
theorem C2_from_solution_example :
    from_solution ["..B", "ACE", "..E"] =
      some { cells := [
        [PuzzleCell.filled, PuzzleCell.filled,
         PuzzleCell.valued 'B' (WordIdxDirection.Down 0) (ClueNoDirection.Down 1)],
        [PuzzleCell.valued 'A' (WordIdxDirection.Across 0) (ClueNoDirection.Across 2),
         PuzzleCell.valued 'C' (WordIdxDirection.Across 1) (ClueNoDirection.Across 2),
         PuzzleCell.valued 'E' (WordIdxDirection.Cross 2 1) (ClueNoDirection.Cross 2 1)],
        [PuzzleCell.filled, PuzzleCell.filled,
         PuzzleCell.valued 'E' (WordIdxDirection.Down 2) (ClueNoDirection.Down 1)] ] } := by
  decide

/-! ### Closed-form characterisation of pass 1 -/

/-- A cell starts a word in pass 1: not filled, and starting an across or a
down word. -/
def startsWord (chars : List (List Char)) (height width : Nat) (rc : Nat × Nat) : Bool :=
  !(is_filled chars rc.1 rc.2) &&
    (starts_across chars height width rc.1 rc.2 || starts_down chars height width rc.1 rc.2)

theorem pass1Step_not_starts (chars : List (List Char)) (height width : Nat)
    (st : Numbering) (rc : Nat × Nat) (h : startsWord chars height width rc = false) :
    pass1Step chars height width st rc = st := by
  unfold startsWord at h
  unfold pass1Step
  by_cases hf : is_filled chars rc.1 rc.2 = true
  · rw [if_pos hf]
  · simp only [Bool.not_eq_true] at hf
    simp only [hf, Bool.not_false, Bool.true_and] at h
    simp [hf, h]

theorem pass1Step_starts (chars : List (List Char)) (height width : Nat)
    (st : Numbering) (rc : Nat × Nat) (h : startsWord chars height width rc = true) :
    pass1Step chars height width st rc =
      { across_clue_at := if starts_across chars height width rc.1 rc.2 = true
          then updateAt st.across_clue_at rc st.current_number else st.across_clue_at,
        down_clue_at := if starts_down chars height width rc.1 rc.2 = true
          then updateAt st.down_clue_at rc st.current_number else st.down_clue_at,
        current_number := st.current_number + 1 } := by
  unfold startsWord at h
  rw [Bool.and_eq_true] at h
  obtain ⟨hf, hsd⟩ := h
  rw [Bool.not_eq_true'] at hf
  unfold pass1Step
  rw [if_neg (by simp [hf]), if_pos hsd]

/-- Closed form for the pass-1 fold over any duplicate-free list of cells:
the counter advances by the number of word-start cells, and each map holds
`some` exactly at the word-start cells of the list, with the number given by
the count of word-start cells strictly earlier in the list. -/
theorem pass1_foldl_spec (chars : List (List Char)) (height width : Nat) :
    ∀ l : List (Nat × Nat), l.Nodup → ∀ st : Numbering,
      ((l.foldl (pass1Step chars height width) st).current_number
          = st.current_number + l.countP (startsWord chars height width))
      ∧ (∀ p, (l.foldl (pass1Step chars height width) st).across_clue_at p =
          if p ∈ l ∧ startsWord chars height width p = true ∧
              starts_across chars height width p.1 p.2 = true
          then some (st.current_number +
            (l.takeWhile (fun q => q ≠ p)).countP (startsWord chars height width))
          else st.across_clue_at p)
      ∧ (∀ p, (l.foldl (pass1Step chars height width) st).down_clue_at p =
          if p ∈ l ∧ startsWord chars height width p = true ∧
              starts_down chars height width p.1 p.2 = true
          then some (st.current_number +
            (l.takeWhile (fun q => q ≠ p)).countP (startsWord chars height width))
          else st.down_clue_at p) := by
  intro l
  induction l with
  | nil =>
    intro _ st
    refine ⟨by simp, fun p => ?_, fun p => ?_⟩ <;> simp
  | cons rc t ih =>
    intro hnd st
    obtain ⟨hrc, hnd'⟩ := List.nodup_cons.mp hnd
    rw [List.foldl_cons]
    by_cases hsw : startsWord chars height width rc = true
    · obtain ⟨ihc, iha, ihd⟩ := ih hnd' (pass1Step chars height width st rc)
      have hc' : (pass1Step chars height width st rc).current_number = st.current_number + 1 := by
        rw [pass1Step_starts chars height width st rc hsw]
      have ha' : (pass1Step chars height width st rc).across_clue_at =
          if starts_across chars height width rc.1 rc.2 = true
          then updateAt st.across_clue_at rc st.current_number else st.across_clue_at := by
        rw [pass1Step_starts chars height width st rc hsw]
      have hd' : (pass1Step chars height width st rc).down_clue_at =
          if starts_down chars height width rc.1 rc.2 = true
          then updateAt st.down_clue_at rc st.current_number else st.down_clue_at := by
        rw [pass1Step_starts chars height width st rc hsw]
      refine ⟨?_, fun p => ?_, fun p => ?_⟩
      · rw [ihc, hc', List.countP_cons, if_pos hsw]
        omega
      · rw [iha p, hc', ha']
        by_cases hp : p = rc
        · subst hp
          have hout : ¬ (p ∈ t ∧ startsWord chars height width p = true ∧
              starts_across chars height width p.1 p.2 = true) := fun hcon => hrc hcon.1
          rw [if_neg hout]
          have htw0 : ((p :: t).takeWhile (fun q => q ≠ p)) = ([] : List (Nat × Nat)) := by
            rw [List.takeWhile_cons, if_neg (by simp)]
          rw [htw0, List.countP_nil, Nat.add_zero]
          by_cases hsa : starts_across chars height width p.1 p.2 = true
          · have hcond : p ∈ p :: t ∧ startsWord chars height width p = true ∧
                starts_across chars height width p.1 p.2 = true :=
              ⟨List.mem_cons_self p t, hsw, hsa⟩
            rw [if_pos hcond, if_pos hsa]
            unfold updateAt
            rw [if_pos rfl]
          · have hcond : ¬ (p ∈ p :: t ∧ startsWord chars height width p = true ∧
                starts_across chars height width p.1 p.2 = true) := fun hcon => hsa hcon.2.2
            rw [if_neg hcond, if_neg hsa]
        · have htw : ((rc :: t).takeWhile (fun q => q ≠ p)) =
              rc :: t.takeWhile (fun q => q ≠ p) := by
            rw [List.takeWhile_cons, if_pos (decide_eq_true (show rc ≠ p from fun h => hp h.symm))]
          by_cases hcond : p ∈ t ∧ startsWord chars height width p = true ∧
              starts_across chars height width p.1 p.2 = true
          · have hcond2 : p ∈ rc :: t ∧ startsWord chars height width p = true ∧
                starts_across chars height width p.1 p.2 = true :=
              ⟨List.mem_cons_of_mem rc hcond.1, hcond.2⟩
            rw [if_pos hcond, if_pos hcond2, htw, List.countP_cons, if_pos hsw]
            exact congrArg some (by omega)
          · have hcond2 : ¬ (p ∈ rc :: t ∧ startsWord chars height width p = true ∧
                starts_across chars height width p.1 p.2 = true) := fun hcon =>
              hcond ⟨(List.mem_cons.mp hcon.1).resolve_left hp, hcon.2⟩
            rw [if_neg hcond, if_neg hcond2]
            by_cases hsa : starts_across chars height width rc.1 rc.2 = true
            · rw [if_pos hsa]
              unfold updateAt
              rw [if_neg hp]
            · rw [if_neg hsa]
      · rw [ihd p, hc', hd']
        by_cases hp : p = rc
        · subst hp
          have hout : ¬ (p ∈ t ∧ startsWord chars height width p = true ∧
              starts_down chars height width p.1 p.2 = true) := fun hcon => hrc hcon.1
          rw [if_neg hout]
          have htw0 : ((p :: t).takeWhile (fun q => q ≠ p)) = ([] : List (Nat × Nat)) := by
            rw [List.takeWhile_cons, if_neg (by simp)]
          rw [htw0, List.countP_nil, Nat.add_zero]
          by_cases hsd : starts_down chars height width p.1 p.2 = true
          · have hcond : p ∈ p :: t ∧ startsWord chars height width p = true ∧
                starts_down chars height width p.1 p.2 = true :=
              ⟨List.mem_cons_self p t, hsw, hsd⟩
            rw [if_pos hcond, if_pos hsd]
            unfold updateAt
            rw [if_pos rfl]
          · have hcond : ¬ (p ∈ p :: t ∧ startsWord chars height width p = true ∧
                starts_down chars height width p.1 p.2 = true) := fun hcon => hsd hcon.2.2
            rw [if_neg hcond, if_neg hsd]
        · have htw : ((rc :: t).takeWhile (fun q => q ≠ p)) =
              rc :: t.takeWhile (fun q => q ≠ p) := by
            rw [List.takeWhile_cons, if_pos (decide_eq_true (show rc ≠ p from fun h => hp h.symm))]
          by_cases hcond : p ∈ t ∧ startsWord chars height width p = true ∧
              starts_down chars height width p.1 p.2 = true
          · have hcond2 : p ∈ rc :: t ∧ startsWord chars height width p = true ∧
                starts_down chars height width p.1 p.2 = true :=
              ⟨List.mem_cons_of_mem rc hcond.1, hcond.2⟩
            rw [if_pos hcond, if_pos hcond2, htw, List.countP_cons, if_pos hsw]
            exact congrArg some (by omega)
          · have hcond2 : ¬ (p ∈ rc :: t ∧ startsWord chars height width p = true ∧
                starts_down chars height width p.1 p.2 = true) := fun hcon =>
              hcond ⟨(List.mem_cons.mp hcon.1).resolve_left hp, hcon.2⟩
            rw [if_neg hcond, if_neg hcond2]
            by_cases hsd : starts_down chars height width rc.1 rc.2 = true
            · rw [if_pos hsd]
              unfold updateAt
              rw [if_neg hp]
            · rw [if_neg hsd]
    · have hswf : startsWord chars height width rc = false := by
        cases h : startsWord chars height width rc
        · rfl
        · exact absurd h hsw
      have hstep : pass1Step chars height width st rc = st :=
        pass1Step_not_starts chars height width st rc hswf
      rw [hstep]
      obtain ⟨ihc, iha, ihd⟩ := ih hnd' st
      refine ⟨?_, fun p => ?_, fun p => ?_⟩
      · rw [ihc, List.countP_cons, if_neg (by rw [hswf]; exact Bool.false_ne_true)]
        omega
      · rw [iha p]
        by_cases hp : p = rc
        · subst hp
          have hout1 : ¬ (p ∈ t ∧ startsWord chars height width p = true ∧
              starts_across chars height width p.1 p.2 = true) := fun hcon => hrc hcon.1
          have hout2 : ¬ (p ∈ p :: t ∧ startsWord chars height width p = true ∧
              starts_across chars height width p.1 p.2 = true) := fun hcon => by
            rw [hswf] at hcon
            exact Bool.false_ne_true hcon.2.1
          rw [if_neg hout1, if_neg hout2]
        · have htw : ((rc :: t).takeWhile (fun q => q ≠ p)) =
              rc :: t.takeWhile (fun q => q ≠ p) := by
            rw [List.takeWhile_cons, if_pos (decide_eq_true (show rc ≠ p from fun h => hp h.symm))]
          by_cases hcond : p ∈ t ∧ startsWord chars height width p = true ∧
              starts_across chars height width p.1 p.2 = true
          · have hcond2 : p ∈ rc :: t ∧ startsWord chars height width p = true ∧
                starts_across chars height width p.1 p.2 = true :=
              ⟨List.mem_cons_of_mem rc hcond.1, hcond.2⟩
            rw [if_pos hcond, if_pos hcond2, htw, List.countP_cons,
              if_neg (by rw [hswf]; exact Bool.false_ne_true)]
            exact congrArg some (by omega)
          · have hcond2 : ¬ (p ∈ rc :: t ∧ startsWord chars height width p = true ∧
                starts_across chars height width p.1 p.2 = true) := fun hcon =>
              hcond ⟨(List.mem_cons.mp hcon.1).resolve_left hp, hcon.2⟩
            rw [if_neg hcond, if_neg hcond2]
      · rw [ihd p]
        by_cases hp : p = rc
        · subst hp
          have hout1 : ¬ (p ∈ t ∧ startsWord chars height width p = true ∧
              starts_down chars height width p.1 p.2 = true) := fun hcon => hrc hcon.1
          have hout2 : ¬ (p ∈ p :: t ∧ startsWord chars height width p = true ∧
              starts_down chars height width p.1 p.2 = true) := fun hcon => by
            rw [hswf] at hcon
            exact Bool.false_ne_true hcon.2.1
          rw [if_neg hout1, if_neg hout2]
        · have htw : ((rc :: t).takeWhile (fun q => q ≠ p)) =
              rc :: t.takeWhile (fun q => q ≠ p) := by
            rw [List.takeWhile_cons, if_pos (decide_eq_true (show rc ≠ p from fun h => hp h.symm))]
          by_cases hcond : p ∈ t ∧ startsWord chars height width p = true ∧
              starts_down chars height width p.1 p.2 = true
          · have hcond2 : p ∈ rc :: t ∧ startsWord chars height width p = true ∧
                starts_down chars height width p.1 p.2 = true :=
              ⟨List.mem_cons_of_mem rc hcond.1, hcond.2⟩
            rw [if_pos hcond, if_pos hcond2, htw, List.countP_cons,
              if_neg (by rw [hswf]; exact Bool.false_ne_true)]
            exact congrArg some (by omega)
          · have hcond2 : ¬ (p ∈ rc :: t ∧ startsWord chars height width p = true ∧
                starts_down chars height width p.1 p.2 = true) := fun hcon =>
              hcond ⟨(List.mem_cons.mp hcon.1).resolve_left hp, hcon.2⟩
            rw [if_neg hcond, if_neg hcond2]

/-- Strict row-major order on cell positions: earlier row, or same row and
earlier column. -/
def lexLt (p q : Nat × Nat) : Prop :=
  p.1 < q.1 ∨ (p.1 = q.1 ∧ p.2 < q.2)

theorem mem_rowMajor (height width : Nat) (p : Nat × Nat) :
    p ∈ rowMajor height width ↔ p.1 < height ∧ p.2 < width := by
  obtain ⟨pr, pc⟩ := p
  unfold rowMajor
  simp only [List.mem_flatMap, List.mem_map, List.mem_range, Prod.mk.injEq]
  constructor
  · rintro ⟨r, hr, c, hc, h1, h2⟩
    subst h1; subst h2
    exact ⟨hr, hc⟩
  · rintro ⟨h1, h2⟩
    exact ⟨pr, h1, pc, h2, rfl, rfl⟩

theorem pairwise_rowMajor (height width : Nat) :
    List.Pairwise lexLt (rowMajor height width) := by
  unfold rowMajor
  rw [List.pairwise_flatMap]
  constructor
  · intro r _
    rw [List.pairwise_map]
    refine List.Pairwise.imp ?_ (List.pairwise_lt_range width)
    intro a b h
    exact Or.inr ⟨rfl, h⟩
  · refine List.Pairwise.imp ?_ (List.pairwise_lt_range height)
    intro r1 r2 hlt x hx y hy
    obtain ⟨c1, _, rfl⟩ := List.mem_map.mp hx
    obtain ⟨c2, _, rfl⟩ := List.mem_map.mp hy
    exact Or.inl hlt

theorem nodup_rowMajor (height width : Nat) : (rowMajor height width).Nodup := by
  refine List.Pairwise.imp ?_ (pairwise_rowMajor height width)
  intro p q h he
  subst he
  rcases h with h | ⟨h1, h2⟩ <;> omega

theorem takeWhile_ne_eq_take {l : List (Nat × Nat)} (hnd : l.Nodup) :
    ∀ (i : Nat) (p : Nat × Nat), l.get? i = some p →
      l.takeWhile (fun q => q ≠ p) = l.take i := by
  induction l with
  | nil =>
    intro i p hi
    simp at hi
  | cons a t ih =>
    intro i p hi
    obtain ⟨hna, hnd'⟩ := List.nodup_cons.mp hnd
    cases i with
    | zero =>
      rw [List.get?_cons_zero] at hi
      injection hi with h
      subst h
      rw [List.takeWhile_cons, if_neg (by simp), List.take_zero]
    | succ i =>
      rw [List.get?_cons_succ] at hi
      have hpt : p ∈ t := List.get?_mem hi
      have hne : a ≠ p := fun he => hna (he ▸ hpt)
      rw [List.takeWhile_cons, if_pos (decide_eq_true hne), List.take_succ_cons,
        ih hnd' i p hi]

theorem countP_take_lt (l : List (Nat × Nat)) (P : Nat × Nat → Bool) (i j : Nat)
    (hij : i < j) (p : Nat × Nat) (hip : l.get? i = some p) (hPp : P p = true) :
    (l.take i).countP P < (l.take j).countP P := by
  have h1 : (l.take (i + 1)).countP P = (l.take i).countP P + 1 := by
    rw [List.take_succ, ← List.get?_eq_getElem?, hip, Option.toList_some,
      List.countP_append]
    simp [hPp, List.countP_cons]
  have h2 : (l.take (i + 1)).countP P ≤ (l.take j).countP P := by
    have hsub : (l.take (i + 1)).Sublist (l.take j) := by
      have : l.take (i + 1) = (l.take j).take (i + 1) := by
        rw [List.take_take, min_eq_left (by omega)]
      rw [this]
      exact List.take_sublist (i + 1) (l.take j)
    exact hsub.countP_le P
  omega

theorem lex_index_lt {l : List (Nat × Nat)} (hpw : List.Pairwise lexLt l)
    {i j : Nat} {p q : Nat × Nat} (hip : l.get? i = some p) (hjq : l.get? j = some q)
    (hlex : lexLt p q) : i < j := by
  rcases lt_trichotomy i j with h | h | h
  · exact h
  · exfalso
    rw [h, hjq] at hip
    injection hip with he
    subst he
    rcases hlex with hx | ⟨h1, h2⟩ <;> omega
  · exfalso
    obtain ⟨hj, hgj⟩ := List.get?_eq_some.mp hjq
    obtain ⟨hi, hgi⟩ := List.get?_eq_some.mp hip
    have := List.pairwise_iff_get.mp hpw ⟨j, hj⟩ ⟨i, hi⟩ h
    rw [hgi, hgj] at this
    rcases hlex with hx | ⟨h1, h2⟩ <;> rcases this with hy | ⟨h3, h4⟩ <;> omega

/-- The number a cell is assigned by pass 1: the across number if the cell
starts an across word, otherwise the down number (they coincide when both
are assigned). -/
def numberAt (nb : Numbering) (p : Nat × Nat) : Option Nat :=
  match nb.across_clue_at p with
  | some n => some n
  | none => nb.down_clue_at p

/-- Closed form of the `across_clue_at` array built by pass 1. -/
theorem pass1_across_spec (chars : List (List Char)) (height width : Nat) (p : Nat × Nat) :
    (pass1 chars height width).across_clue_at p =
      if p ∈ rowMajor height width ∧ startsWord chars height width p = true ∧
          starts_across chars height width p.1 p.2 = true
      then some (1 + ((rowMajor height width).takeWhile (fun q => q ≠ p)).countP
        (startsWord chars height width))
      else none := by
  have h := (pass1_foldl_spec chars height width (rowMajor height width)
    (nodup_rowMajor height width)
    { across_clue_at := fun _ => none, down_clue_at := fun _ => none,
      current_number := 1 }).2.1 p
  unfold pass1
  exact h

/-- Closed form of the `down_clue_at` array built by pass 1. -/
theorem pass1_down_spec (chars : List (List Char)) (height width : Nat) (p : Nat × Nat) :
    (pass1 chars height width).down_clue_at p =
      if p ∈ rowMajor height width ∧ startsWord chars height width p = true ∧
          starts_down chars height width p.1 p.2 = true
      then some (1 + ((rowMajor height width).takeWhile (fun q => q ≠ p)).countP
        (startsWord chars height width))
      else none := by
  have h := (pass1_foldl_spec chars height width (rowMajor height width)
    (nodup_rowMajor height width)
    { across_clue_at := fun _ => none, down_clue_at := fun _ => none,
      current_number := 1 }).2.2 p
  unfold pass1
  exact h

/-- Closed form of the number assigned to a cell by pass 1. -/
theorem pass1_numberAt_spec (chars : List (List Char)) (height width : Nat)
    (p : Nat × Nat) (np : Nat) :
    numberAt (pass1 chars height width) p = some np ↔
      (p ∈ rowMajor height width ∧ startsWord chars height width p = true ∧
        np = 1 + ((rowMajor height width).takeWhile (fun q => q ≠ p)).countP
          (startsWord chars height width)) := by
  unfold numberAt
  rw [pass1_across_spec, pass1_down_spec]
  by_cases hmem : p ∈ rowMajor height width
  · by_cases hsw : startsWord chars height width p = true
    · by_cases hsa : starts_across chars height width p.1 p.2 = true
      · rw [if_pos ⟨hmem, hsw, hsa⟩]
        constructor
        · intro h
          injection h with h
          exact ⟨hmem, hsw, h.symm⟩
        · intro ⟨_, _, h⟩
          rw [h]
      · have hsd : starts_down chars height width p.1 p.2 = true := by
          unfold startsWord at hsw
          rw [Bool.and_eq_true, Bool.or_eq_true] at hsw
          rcases hsw.2 with h | h
          · exact absurd h hsa
          · exact h
        rw [if_neg (fun hcon => hsa hcon.2.2), if_pos ⟨hmem, hsw, hsd⟩]
        constructor
        · intro h
          injection h with h
          exact ⟨hmem, hsw, h.symm⟩
        · intro ⟨_, _, h⟩
          rw [h]
    · rw [if_neg (fun hcon => hsw hcon.2.1), if_neg (fun hcon => hsw hcon.2.1)]
      constructor
      · intro h
        exact Option.noConfusion h
      · intro ⟨_, h, _⟩
        exact absurd h hsw
  · rw [if_neg (fun hcon => hmem hcon.1), if_neg (fun hcon => hmem hcon.1)]
    constructor
    · intro h
      exact Option.noConfusion h
    · intro ⟨h, _, _⟩
      exact absurd h hmem

/-- C3: in pass 1 of the numbering indexer, for every solution grid: an
in-grid non-blocked cell is assigned a clue number iff it starts an across
word (no open cell immediately to its left — blocked or edge — and an open
cell to its immediate right) or starts a down word (symmetric with
above/below); a cell starting both ways shares one number; numbers are
assigned in strict row-major scan order (a cell numbered later in the scan
gets a strictly greater number), and no number is ever assigned to two
different cells. -/
theorem C3_pass1_row_major_numbering (solution : List String)
    (chars : List (List Char)) (hchars : chars = solution.map (fun s => s.data))
    (height width : Nat) (hh : height = solution.length)
    (hw : width = (chars.getD 0 []).length) :
    (∀ p : Nat × Nat, p.1 < height → p.2 < width → is_filled chars p.1 p.2 = false →
      ((((pass1 chars height width).across_clue_at p).isSome = true ∨
        ((pass1 chars height width).down_clue_at p).isSome = true) ↔
        (starts_across chars height width p.1 p.2 = true ∨
         starts_down chars height width p.1 p.2 = true)))
    ∧ (∀ p a d, (pass1 chars height width).across_clue_at p = some a →
        (pass1 chars height width).down_clue_at p = some d → a = d)
    ∧ (∀ p q np nq, numberAt (pass1 chars height width) p = some np →
        numberAt (pass1 chars height width) q = some nq → lexLt p q → np < nq)
    ∧ (∀ p q np, numberAt (pass1 chars height width) p = some np →
        numberAt (pass1 chars height width) q = some np → p = q) := by
  have key : ∀ p q np nq, numberAt (pass1 chars height width) p = some np →
      numberAt (pass1 chars height width) q = some nq → lexLt p q → np < nq := by
    intro p q np nq hp hq hlex
    obtain ⟨hpm, hpsw, hpn⟩ := (pass1_numberAt_spec chars height width p np).mp hp
    obtain ⟨hqm, hqsw, hqn⟩ := (pass1_numberAt_spec chars height width q nq).mp hq
    obtain ⟨fi, hig⟩ := List.mem_iff_get.mp hpm
    obtain ⟨fj, hjg⟩ := List.mem_iff_get.mp hqm
    have hip : (rowMajor height width).get? fi.1 = some p := by
      rw [List.get?_eq_some]
      exact ⟨fi.2, hig⟩
    have hjq : (rowMajor height width).get? fj.1 = some q := by
      rw [List.get?_eq_some]
      exact ⟨fj.2, hjg⟩
    have hij : fi.1 < fj.1 := lex_index_lt (pairwise_rowMajor height width) hip hjq hlex
    have hcount := countP_take_lt (rowMajor height width) (startsWord chars height width)
      fi.1 fj.1 hij p hip hpsw
    rw [takeWhile_ne_eq_take (nodup_rowMajor height width) fi.1 p hip] at hpn
    rw [takeWhile_ne_eq_take (nodup_rowMajor height width) fj.1 q hjq] at hqn
    omega
  refine ⟨?_, ?_, key, ?_⟩
  · intro p h1 h2 hf
    constructor
    · intro h
      rcases h with h | h
      · rw [pass1_across_spec] at h
        by_cases hc : p ∈ rowMajor height width ∧ startsWord chars height width p = true ∧
            starts_across chars height width p.1 p.2 = true
        · exact Or.inl hc.2.2
        · rw [if_neg hc] at h
          exact absurd h (by simp)
      · rw [pass1_down_spec] at h
        by_cases hc : p ∈ rowMajor height width ∧ startsWord chars height width p = true ∧
            starts_down chars height width p.1 p.2 = true
        · exact Or.inr hc.2.2
        · rw [if_neg hc] at h
          exact absurd h (by simp)
    · intro h
      have hmem : p ∈ rowMajor height width := (mem_rowMajor height width p).mpr ⟨h1, h2⟩
      have hsw : startsWord chars height width p = true := by
        unfold startsWord
        rw [hf]
        rcases h with h | h <;> simp [h]
      rcases h with h | h
      · left
        rw [pass1_across_spec, if_pos ⟨hmem, hsw, h⟩]
        rfl
      · by_cases hsa : starts_across chars height width p.1 p.2 = true
        · left
          rw [pass1_across_spec, if_pos ⟨hmem, hsw, hsa⟩]
          rfl
        · right
          rw [pass1_down_spec, if_pos ⟨hmem, hsw, h⟩]
          rfl
  · intro p a d ha hd
    rw [pass1_across_spec] at ha
    rw [pass1_down_spec] at hd
    by_cases hca : p ∈ rowMajor height width ∧ startsWord chars height width p = true ∧
        starts_across chars height width p.1 p.2 = true
    · rw [if_pos hca] at ha
      by_cases hcd : p ∈ rowMajor height width ∧ startsWord chars height width p = true ∧
          starts_down chars height width p.1 p.2 = true
      · rw [if_pos hcd] at hd
        injection ha with ha'
        injection hd with hd'
        rw [← ha', ← hd']
      · rw [if_neg hcd] at hd
        exact Option.noConfusion hd
    · rw [if_neg hca] at ha
      exact Option.noConfusion ha
  · intro p q np hp hq
    by_cases hpq : p = q
    · exact hpq
    · exfalso
      have hlex : lexLt p q ∨ lexLt q p := by
        unfold lexLt
        rcases Nat.lt_trichotomy p.1 q.1 with h | h | h
        · exact Or.inl (Or.inl h)
        · rcases Nat.lt_trichotomy p.2 q.2 with h2 | h2 | h2
          · exact Or.inl (Or.inr ⟨h, h2⟩)
          · exact absurd (Prod.ext h h2) hpq
          · exact Or.inr (Or.inr ⟨h.symm, h2⟩)
        · exact Or.inr (Or.inl h)
      rcases hlex with h | h
      · exact Nat.lt_irrefl np (key p q np np hp hq h)
      · exact Nat.lt_irrefl np (key q p np np hq hp h)

/-- Witness for C3: on the 3×3 example grid, cell (1,0) is assigned a number
(it starts the across word ACE). -/
theorem C3_pass1_row_major_numbering_witness :
    ((pass1 (["..B", "ACE", "..E"].map (fun s => s.data)) 3 3).across_clue_at (1, 0)).isSome
        = true ∨
      ((pass1 (["..B", "ACE", "..E"].map (fun s => s.data)) 3 3).down_clue_at (1, 0)).isSome
        = true :=
  ((C3_pass1_row_major_numbering ["..B", "ACE", "..E"] _ rfl 3 3 rfl (by decide)).1
      (1, 0) (by decide) (by decide) (by decide)).mpr (Or.inl (by decide))

/-! ### Pass 2: classification of every cell, and the isolated-cell panic -/

theorem optMap_none_of_mem (f : α → Option β) :
    ∀ (l : List α) (a : α), a ∈ l → f a = none → optMap f l = none := by
  intro l
  induction l with
  | nil => intro a ha; cases ha
  | cons x t ih =>
    intro a ha hfa
    unfold optMap
    rcases List.mem_cons.mp ha with h | h
    · subst h
      rw [hfa]
    · cases hfx : f x with
      | none => rfl
      | some b => rw [ih a h hfa]

theorem optMap_some_of_all (f : α → Option β) :
    ∀ l : List α, (∀ a ∈ l, (f a).isSome = true) →
      ∃ bs, optMap f l = some bs ∧ bs.length = l.length ∧
        ∀ i a, l.get? i = some a → bs.get? i = f a := by
  intro l
  induction l with
  | nil =>
    intro _
    exact ⟨[], rfl, rfl, fun i a hi => by simp at hi⟩
  | cons a t ih =>
    intro h
    obtain ⟨b, hb⟩ := Option.isSome_iff_exists.mp (h a (List.mem_cons_self a t))
    obtain ⟨bs, hbs, hlen, hidx⟩ := ih (fun x hx => h x (List.mem_cons_of_mem a hx))
    refine ⟨b :: bs, ?_, by simp [hlen], ?_⟩
    · unfold optMap
      rw [hb, hbs]
    · intro i x hi
      cases i with
      | zero =>
        rw [List.get?_cons_zero] at hi
        injection hi with hx
        subst hx
        rw [List.get?_cons_zero, hb]
      | succ i =>
        rw [List.get?_cons_succ] at hi
        rw [List.get?_cons_succ]
        exact hidx i x hi

theorem is_letter_iff (chars : List (List Char)) (height width : Nat) (r c : Int) :
    is_letter chars height width r c = true ↔
      0 ≤ r ∧ 0 ≤ c ∧ r < (height : Int) ∧ c < (width : Int) ∧
        is_filled chars r.toNat c.toNat = false := by
  unfold is_letter
  simp [Bool.and_eq_true, decide_eq_true_eq, Bool.not_eq_true', and_assoc]

theorem scanLeftStart_le (chars : List (List Char)) (row : Nat) :
    ∀ col, scanLeftStart chars row col ≤ col := by
  intro col
  induction col with
  | zero => exact Nat.le_refl 0
  | succ c ih =>
    unfold scanLeftStart
    cases h : is_filled chars row c with
    | false =>
      simp only [Bool.not_false, if_true]
      omega
    | true =>
      simp

theorem scanLeftStart_unfilled (chars : List (List Char)) (row : Nat) :
    ∀ col, is_filled chars row col = false →
      ∀ k, scanLeftStart chars row col ≤ k → k ≤ col → is_filled chars row k = false := by
  intro col
  induction col with
  | zero =>
    intro hc k h1 h2
    have : k = 0 := Nat.le_antisymm h2 (Nat.zero_le k)
    rw [this]
    exact hc
  | succ c ih =>
    intro hc k h1 h2
    unfold scanLeftStart at h1
    cases h : is_filled chars row c with
    | false =>
      rw [h] at h1
      simp only [Bool.not_false, if_true] at h1
      by_cases hk : k = c + 1
      · rw [hk]
        exact hc
      · exact ih h k h1 (by omega)
    | true =>
      rw [h] at h1
      simp only [Bool.not_true, if_false] at h1
      have : k = c + 1 := Nat.le_antisymm h2 h1
      rw [this]
      exact hc

theorem scanLeftStart_boundary (chars : List (List Char)) (row : Nat) :
    ∀ col, scanLeftStart chars row col = 0 ∨
      is_filled chars row (scanLeftStart chars row col - 1) = true := by
  intro col
  induction col with
  | zero => exact Or.inl rfl
  | succ c ih =>
    unfold scanLeftStart
    cases h : is_filled chars row c with
    | false =>
      simp only [Bool.not_false, if_true]
      exact ih
    | true =>
      simp only [Bool.not_true, if_false]
      right
      simpa using h

theorem scanUpStart_le (chars : List (List Char)) (col : Nat) :
    ∀ row, scanUpStart chars col row ≤ row := by
  intro row
  induction row with
  | zero => exact Nat.le_refl 0
  | succ r ih =>
    unfold scanUpStart
    cases h : is_filled chars r col with
    | false =>
      simp only [Bool.not_false, if_true]
      omega
    | true =>
      simp

theorem scanUpStart_unfilled (chars : List (List Char)) (col : Nat) :
    ∀ row, is_filled chars row col = false →
      ∀ k, scanUpStart chars col row ≤ k → k ≤ row → is_filled chars k col = false := by
  intro row
  induction row with
  | zero =>
    intro hc k h1 h2
    have : k = 0 := Nat.le_antisymm h2 (Nat.zero_le k)
    rw [this]
    exact hc
  | succ r ih =>
    intro hc k h1 h2
    unfold scanUpStart at h1
    cases h : is_filled chars r col with
    | false =>
      rw [h] at h1
      simp only [Bool.not_false, if_true] at h1
      by_cases hk : k = r + 1
      · rw [hk]
        exact hc
      · exact ih h k h1 (by omega)
    | true =>
      rw [h] at h1
      simp only [Bool.not_true, if_false] at h1
      have : k = r + 1 := Nat.le_antisymm h2 h1
      rw [this]
      exact hc

theorem scanUpStart_boundary (chars : List (List Char)) (col : Nat) :
    ∀ row, scanUpStart chars col row = 0 ∨
      is_filled chars (scanUpStart chars col row - 1) col = true := by
  intro row
  induction row with
  | zero => exact Or.inl rfl
  | succ r ih =>
    unfold scanUpStart
    cases h : is_filled chars r col with
    | false =>
      simp only [Bool.not_false, if_true]
      exact ih
    | true =>
      simp only [Bool.not_true, if_false]
      right
      simpa using h

/-- Scanning left from an open in-grid cell lands on the start of its across
word: that start cell really satisfies the pass-1 across-start condition. -/
theorem starts_across_at_scanLeft (chars : List (List Char)) (height width : Nat)
    (row col : Nat) (hrow : row < height) (hcol : col < width)
    (hf : is_filled chars row col = false)
    (hnb : is_letter chars height width (row : Int) ((col : Int) - 1) = true ∨
           is_letter chars height width (row : Int) ((col : Int) + 1) = true) :
    starts_across chars height width row (scanLeftStart chars row col) = true ∧
      scanLeftStart chars row col ≤ col ∧
      is_filled chars row (scanLeftStart chars row col) = false := by
  have hle : scanLeftStart chars row col ≤ col := scanLeftStart_le chars row col
  have hunf : ∀ k, scanLeftStart chars row col ≤ k → k ≤ col →
      is_filled chars row k = false :=
    scanLeftStart_unfilled chars row col hf
  have hsf : is_filled chars row (scanLeftStart chars row col) = false :=
    hunf _ (Nat.le_refl _) hle
  refine ⟨?_, hle, hsf⟩
  unfold starts_across
  rw [Bool.and_eq_true]
  constructor
  · rw [Bool.not_eq_true', Bool.eq_false_iff]
    intro hcon
    obtain ⟨hc0, hc1, hc2, hc3, hfil⟩ := (is_letter_iff chars height width _ _).mp hcon
    rcases scanLeftStart_boundary chars row col with hb | hb
    · omega
    · have htn : ((scanLeftStart chars row col : Int) - 1).toNat
          = scanLeftStart chars row col - 1 := by omega
      rw [Int.toNat_natCast, htn] at hfil
      rw [hfil] at hb
      exact Bool.noConfusion hb
  · by_cases hsc : scanLeftStart chars row col = col
    · rcases hnb with hl | hr
      · exfalso
        obtain ⟨_, hc1, _, _, hfil⟩ := (is_letter_iff chars height width _ _).mp hl
        rcases scanLeftStart_boundary chars row col with hb | hb
        · omega
        · have htn : ((col : Int) - 1).toNat = col - 1 := by omega
          rw [Int.toNat_natCast, htn] at hfil
          rw [hsc] at hb
          rw [hfil] at hb
          exact Bool.noConfusion hb
      · rw [hsc]
        exact hr
    · have hslt : scanLeftStart chars row col < col := lt_of_le_of_ne hle hsc
      refine (is_letter_iff chars height width _ _).mpr
        ⟨by omega, by omega, by omega, by omega, ?_⟩
      have htn : ((scanLeftStart chars row col : Int) + 1).toNat
          = scanLeftStart chars row col + 1 := by omega
      rw [Int.toNat_natCast, htn]
      exact hunf _ (by omega) (by omega)

/-- Scanning up from an open in-grid cell lands on the start of its down
word: that start cell really satisfies the pass-1 down-start condition. -/
theorem starts_down_at_scanUp (chars : List (List Char)) (height width : Nat)
    (row col : Nat) (hrow : row < height) (hcol : col < width)
    (hf : is_filled chars row col = false)
    (hnb : is_letter chars height width ((row : Int) - 1) (col : Int) = true ∨
           is_letter chars height width ((row : Int) + 1) (col : Int) = true) :
    starts_down chars height width (scanUpStart chars col row) col = true ∧
      scanUpStart chars col row ≤ row ∧
      is_filled chars (scanUpStart chars col row) col = false := by
  have hle : scanUpStart chars col row ≤ row := scanUpStart_le chars col row
  have hunf : ∀ k, scanUpStart chars col row ≤ k → k ≤ row →
      is_filled chars k col = false :=
    scanUpStart_unfilled chars col row hf
  have hsf : is_filled chars (scanUpStart chars col row) col = false :=
    hunf _ (Nat.le_refl _) hle
  refine ⟨?_, hle, hsf⟩
  unfold starts_down
  rw [Bool.and_eq_true]
  constructor
  · rw [Bool.not_eq_true', Bool.eq_false_iff]
    intro hcon
    obtain ⟨hc0, hc1, hc2, hc3, hfil⟩ := (is_letter_iff chars height width _ _).mp hcon
    rcases scanUpStart_boundary chars col row with hb | hb
    · omega
    · have htn : ((scanUpStart chars col row : Int) - 1).toNat
          = scanUpStart chars col row - 1 := by omega
      rw [Int.toNat_natCast, htn] at hfil
      rw [hfil] at hb
      exact Bool.noConfusion hb
  · by_cases hsc : scanUpStart chars col row = row
    · rcases hnb with hl | hr
      · exfalso
        obtain ⟨hc0, _, _, _, hfil⟩ := (is_letter_iff chars height width _ _).mp hl
        rcases scanUpStart_boundary chars col row with hb | hb
        · omega
        · have htn : ((row : Int) - 1).toNat = row - 1 := by omega
          rw [Int.toNat_natCast, htn] at hfil
          rw [hsc] at hb
          rw [hfil] at hb
          exact Bool.noConfusion hb
      · rw [hsc]
        exact hr
    · have hslt : scanUpStart chars col row < row := lt_of_le_of_ne hle hsc
      refine (is_letter_iff chars height width _ _).mpr
        ⟨by omega, by omega, by omega, by omega, ?_⟩
      have htn : ((scanUpStart chars col row : Int) + 1).toNat
          = scanUpStart chars col row + 1 := by omega
      rw [Int.toNat_natCast, htn]
      exact hunf _ (by omega) (by omega)

/-- The isolated-cell situation reaches the `panic!` branch of pass 2. -/
theorem classifyCell_none_of_isolated (chars : List (List Char)) (height width : Nat)
    (nb : Numbering) (row col : Nat)
    (hf : is_filled chars row col = false)
    (h1 : is_letter chars height width (row : Int) ((col : Int) - 1) = false)
    (h2 : is_letter chars height width (row : Int) ((col : Int) + 1) = false)
    (h3 : is_letter chars height width ((row : Int) - 1) (col : Int) = false)
    (h4 : is_letter chars height width ((row : Int) + 1) (col : Int) = false) :
    classifyCell chars height width nb row col = none := by
  unfold classifyCell
  rw [if_neg (by rw [hf]; exact Bool.false_ne_true)]
  simp [h1, h2, h3, h4]

/-- Any open in-grid cell with an open orthogonal neighbour is classified
into a letter cell by pass 2 (using the numbering produced by pass 1). -/
theorem classifyCell_some_of_neighbor (chars : List (List Char)) (height width : Nat)
    (row col : Nat) (hrow : row < height) (hcol : col < width)
    (hf : is_filled chars row col = false)
    (hnb : is_letter chars height width (row : Int) ((col : Int) - 1) = true ∨
           is_letter chars height width (row : Int) ((col : Int) + 1) = true ∨
           is_letter chars height width ((row : Int) - 1) (col : Int) = true ∨
           is_letter chars height width ((row : Int) + 1) (col : Int) = true) :
    ∃ cl wi cn, classifyCell chars height width (pass1 chars height width) row col
      = some (PuzzleCell.valued cl wi cn) := by
  have hacross : (is_letter chars height width (row : Int) ((col : Int) - 1) = true ∨
      is_letter chars height width (row : Int) ((col : Int) + 1) = true) →
      ∃ n, (pass1 chars height width).across_clue_at (row, scanLeftStart chars row col)
        = some n := by
    intro hn
    obtain ⟨hsa, hle, hsf⟩ :=
      starts_across_at_scanLeft chars height width row col hrow hcol hf hn
    have hsw : startsWord chars height width (row, scanLeftStart chars row col) = true := by
      show (!(is_filled chars row (scanLeftStart chars row col)) &&
        (starts_across chars height width row (scanLeftStart chars row col) ||
         starts_down chars height width row (scanLeftStart chars row col))) = true
      rw [hsf, hsa]
      rfl
    rw [pass1_across_spec,
      if_pos ⟨(mem_rowMajor height width _).mpr ⟨hrow, by omega⟩, hsw, hsa⟩]
    exact ⟨_, rfl⟩
  have hdown : (is_letter chars height width ((row : Int) - 1) (col : Int) = true ∨
      is_letter chars height width ((row : Int) + 1) (col : Int) = true) →
      ∃ n, (pass1 chars height width).down_clue_at (scanUpStart chars col row, col)
        = some n := by
    intro hn
    obtain ⟨hsd, hle, hsf⟩ :=
      starts_down_at_scanUp chars height width row col hrow hcol hf hn
    have hsw : startsWord chars height width (scanUpStart chars col row, col) = true := by
      show (!(is_filled chars (scanUpStart chars col row) col) &&
        (starts_across chars height width (scanUpStart chars col row) col ||
         starts_down chars height width (scanUpStart chars col row) col)) = true
      rw [hsf, hsd, Bool.or_true]
      rfl
    rw [pass1_down_spec,
      if_pos ⟨(mem_rowMajor height width _).mpr ⟨by omega, hcol⟩, hsw, hsd⟩]
    exact ⟨_, rfl⟩

  unfold classifyCell
  rw [if_neg (by rw [hf]; exact Bool.false_ne_true)]
  by_cases hA : (is_letter chars height width (row : Int) ((col : Int) - 1) ||
      is_letter chars height width (row : Int) ((col : Int) + 1)) = true
  · obtain ⟨na, hna⟩ := hacross ((Bool.or_eq_true _ _).mp hA)
    by_cases hD : (is_letter chars height width ((row : Int) - 1) (col : Int) ||
        is_letter chars height width ((row : Int) + 1) (col : Int)) = true
    · obtain ⟨nd, hnd⟩ := hdown ((Bool.or_eq_true _ _).mp hD)
      simp only [hA, hD, eq_self_iff_true, if_true, hna, hnd, Option.map_some']
      exact ⟨_, _, _, rfl⟩
    · have hD' : (is_letter chars height width ((row : Int) - 1) (col : Int) ||
          is_letter chars height width ((row : Int) + 1) (col : Int)) = false := by
        cases h : (is_letter chars height width ((row : Int) - 1) (col : Int) ||
            is_letter chars height width ((row : Int) + 1) (col : Int)) with
        | false => rfl
        | true => exact absurd h hD
      simp only [hA, hD', eq_self_iff_true, if_true, Bool.false_eq_true, if_false,
        hna, Option.map_some']
      exact ⟨_, _, _, rfl⟩
  · have hA' : (is_letter chars height width (row : Int) ((col : Int) - 1) ||
        is_letter chars height width (row : Int) ((col : Int) + 1)) = false := by
      cases h : (is_letter chars height width (row : Int) ((col : Int) - 1) ||
          is_letter chars height width (row : Int) ((col : Int) + 1)) with
      | false => rfl
      | true => exact absurd h hA
    have hD : (is_letter chars height width ((row : Int) - 1) (col : Int) ||
        is_letter chars height width ((row : Int) + 1) (col : Int)) = true := by
      rw [Bool.or_eq_true]
      rcases hnb with h | h | h | h
      · exact absurd ((Bool.or_eq_true _ _).mpr (Or.inl h)) hA
      · exact absurd ((Bool.or_eq_true _ _).mpr (Or.inr h)) hA
      · exact Or.inl h
      · exact Or.inr h
    obtain ⟨nd, hnd⟩ := hdown ((Bool.or_eq_true _ _).mp hD)
    simp only [hA', hD, Bool.false_eq_true, if_false, eq_self_iff_true, if_true,
      hnd, Option.map_some']
    exact ⟨_, _, _, rfl⟩

/-- Under the every-open-cell-has-an-open-neighbour precondition, pass 2
builds all its rows: the nested cell-building loops succeed, producing a
rectangular `height`-by-`width` block whose entries are the per-cell
classifications. -/
theorem pass2_rows_of_neighbors (chars : List (List Char)) (height width : Nat)
    (hall : ∀ p : Nat × Nat, p.1 < height → p.2 < width →
      is_filled chars p.1 p.2 = false →
      (is_letter chars height width (p.1 : Int) ((p.2 : Int) - 1) = true ∨
       is_letter chars height width (p.1 : Int) ((p.2 : Int) + 1) = true ∨
       is_letter chars height width ((p.1 : Int) - 1) (p.2 : Int) = true ∨
       is_letter chars height width ((p.1 : Int) + 1) (p.2 : Int) = true)) :
    ∃ bs : List (List PuzzleCell),
      optMap (fun row => optMap (fun col =>
          classifyCell chars height width (pass1 chars height width) row col)
        (List.range width)) (List.range height) = some bs ∧
      bs.length = height ∧
      ∀ r, r < height → ∃ rowcells, bs.get? r = some rowcells ∧
        rowcells.length = width ∧
        ∀ c, c < width → rowcells.get? c
          = classifyCell chars height width (pass1 chars height width) r c := by
  have hinner : ∀ r, r < height → ∃ rowcells,
      optMap (fun col => classifyCell chars height width (pass1 chars height width) r col)
        (List.range width) = some rowcells ∧ rowcells.length = width ∧
      ∀ c, c < width → rowcells.get? c
        = classifyCell chars height width (pass1 chars height width) r c := by
    intro r hr
    have hcells : ∀ c ∈ List.range width,
        ((fun col => classifyCell chars height width (pass1 chars height width) r col)
          c).isSome = true := by
      intro c hc
      have hc' : c < width := List.mem_range.mp hc
      by_cases hfc : is_filled chars r c = true
      · show (classifyCell chars height width (pass1 chars height width) r c).isSome = true
        unfold classifyCell
        rw [if_pos hfc]
        rfl
      · have hfc' : is_filled chars r c = false := by
          cases hx : is_filled chars r c with
          | false => rfl
          | true => exact absurd hx hfc
        obtain ⟨cl, wi, cn, hcls⟩ := classifyCell_some_of_neighbor chars height width
          r c hr hc' hfc' (hall (r, c) hr hc' hfc')
        show (classifyCell chars height width (pass1 chars height width) r c).isSome = true
        rw [hcls]
        rfl
    obtain ⟨rowcells, hsome, hlen, hidx⟩ := optMap_some_of_all
      (fun col => classifyCell chars height width (pass1 chars height width) r col)
      (List.range width) hcells
    refine ⟨rowcells, hsome, by rw [hlen, List.length_range], ?_⟩
    intro c hc
    exact hidx c c (List.get?_range hc)
  have hrows : ∀ r ∈ List.range height,
      ((fun row => optMap (fun col =>
          classifyCell chars height width (pass1 chars height width) row col)
        (List.range width)) r).isSome = true := by
    intro r hr
    obtain ⟨rowcells, hsome, _, _⟩ := hinner r (List.mem_range.mp hr)
    show (optMap (fun col => classifyCell chars height width (pass1 chars height width) r col)
      (List.range width)).isSome = true
    rw [hsome]
    rfl
  obtain ⟨bs, hbs, hbslen, hbsidx⟩ := optMap_some_of_all
    (fun row => optMap (fun col =>
      classifyCell chars height width (pass1 chars height width) row col)
      (List.range width))
    (List.range height) hrows
  refine ⟨bs, hbs, by rw [hbslen, List.length_range], ?_⟩
  intro r hr
  obtain ⟨rowcells, hsome, hlen, hidx⟩ := hinner r hr
  refine ⟨rowcells, ?_, hlen, hidx⟩
  rw [hbsidx r r (List.get?_range hr), hsome]

/-- C7: the numbering indexer's isolated-cell condition is fatal, not a
recoverable error: a solution grid containing an open cell with no open
orthogonal neighbour drives `from_solution` into its `panic!` branch
(modelled as `none`); and under the precondition that every open cell has an
open neighbour to the left/right or above/below, that branch is unreachable —
`from_solution` succeeds and every open cell receives a letter-cell
classification. -/
theorem C7_isolated_cell_fatal (solution : List String)
    (chars : List (List Char)) (hchars : chars = solution.map (fun s => s.data))
    (height width : Nat) (hh : height = solution.length)
    (hw : width = (chars.getD 0 []).length) :
    ((∃ p : Nat × Nat, p.1 < height ∧ p.2 < width ∧ is_filled chars p.1 p.2 = false ∧
        is_letter chars height width (p.1 : Int) ((p.2 : Int) - 1) = false ∧
        is_letter chars height width (p.1 : Int) ((p.2 : Int) + 1) = false ∧
        is_letter chars height width ((p.1 : Int) - 1) (p.2 : Int) = false ∧
        is_letter chars height width ((p.1 : Int) + 1) (p.2 : Int) = false) →
      from_solution solution = none)
    ∧ ((0 < height ∧ (∀ p : Nat × Nat, p.1 < height → p.2 < width →
          is_filled chars p.1 p.2 = false →
          (is_letter chars height width (p.1 : Int) ((p.2 : Int) - 1) = true ∨
           is_letter chars height width (p.1 : Int) ((p.2 : Int) + 1) = true ∨
           is_letter chars height width ((p.1 : Int) - 1) (p.2 : Int) = true ∨
           is_letter chars height width ((p.1 : Int) + 1) (p.2 : Int) = true))) →
      ∃ g, from_solution solution = some g ∧
        ∀ r c, r < height → c < width → is_filled chars r c = false →
          ∃ cl wi cn, (g.cells.getD r []).get? c = some (PuzzleCell.valued cl wi cn)) := by
  subst hchars
  subst hh
  subst hw
  constructor
  · rintro ⟨p, hp1, hp2, hpf, h1, h2, h3, h4⟩
    have hcls : classifyCell (solution.map (fun s => s.data)) solution.length
        (((solution.map (fun s => s.data)).getD 0 []).length)
        (pass1 (solution.map (fun s => s.data)) solution.length
          (((solution.map (fun s => s.data)).getD 0 []).length)) p.1 p.2 = none :=
      classifyCell_none_of_isolated _ _ _ _ p.1 p.2 hpf h1 h2 h3 h4
    have hrow : optMap (fun col => classifyCell (solution.map (fun s => s.data))
        solution.length (((solution.map (fun s => s.data)).getD 0 []).length)
        (pass1 (solution.map (fun s => s.data)) solution.length
          (((solution.map (fun s => s.data)).getD 0 []).length)) p.1 col)
        (List.range (((solution.map (fun s => s.data)).getD 0 []).length)) = none :=
      optMap_none_of_mem _ _ p.2 (List.mem_range.mpr hp2) hcls
    have houter : optMap (fun row => optMap (fun col =>
        classifyCell (solution.map (fun s => s.data)) solution.length
          (((solution.map (fun s => s.data)).getD 0 []).length)
          (pass1 (solution.map (fun s => s.data)) solution.length
            (((solution.map (fun s => s.data)).getD 0 []).length)) row col)
        (List.range (((solution.map (fun s => s.data)).getD 0 []).length)))
        (List.range solution.length) = none :=
      optMap_none_of_mem _ _ p.1 (List.mem_range.mpr hp1) hrow
    unfold from_solution
    rw [if_neg (by omega)]
    simp only [houter]
  · rintro ⟨hpos, hall⟩
    obtain ⟨bs, hbs, hbslen', hbsrow⟩ := pass2_rows_of_neighbors
      (solution.map (fun s => s.data)) solution.length
      (((solution.map (fun s => s.data)).getD 0 []).length) hall
    have hmk : PuzzleGrid.mk? bs = some { cells := bs } := by
      have hrect : bs.all (fun row => decide (row.length = (bs.getD 0 []).length)) = true := by
        rw [List.all_eq_true]
        intro row hrow
        obtain ⟨fi, hfig⟩ := List.mem_iff_get.mp hrow
        have hfir : bs.get? fi.1 = some row := by
          rw [List.get?_eq_some]
          exact ⟨fi.2, hfig⟩
        obtain ⟨rowcells, hrsome, hrlen, _⟩ := hbsrow fi.1 (hbslen' ▸ fi.2)
        rw [hfir] at hrsome
        injection hrsome with hre
        obtain ⟨row0, hr0some, hr0len, _⟩ := hbsrow 0 hpos
        have hgd : bs.getD 0 [] = row0 := by
          unfold List.getD
          rw [hr0some]
          rfl
        rw [decide_eq_true_eq, hgd, hre, hrlen, hr0len]
      unfold PuzzleGrid.mk?
      rw [if_neg (by
        intro hnil
        rw [hnil] at hbslen'
        simp at hbslen'
        omega), if_pos hrect]
    refine ⟨{ cells := bs }, ?_, ?_⟩
    · unfold from_solution
      rw [if_neg (by omega)]
      simp only [hbs]
      exact hmk
    · intro r c hr hc hf
      obtain ⟨rowcells, hrsome, hrlen, hridx⟩ := hbsrow r hr
      have hgd : bs.getD r [] = rowcells := by
        unfold List.getD
        rw [hrsome]
        rfl
      obtain ⟨cl, wi, cn, hcls⟩ := classifyCell_some_of_neighbor _ _ _ r c hr hc hf
        (hall (r, c) hr hc hf)
      refine ⟨cl, wi, cn, ?_⟩
      show (({ cells := bs } : PuzzleGrid).cells.getD r []).get? c = _
      rw [show ({ cells := bs } : PuzzleGrid).cells = bs from rfl, hgd, hridx c hc, hcls]

/-- Witness for C7: the 1×1 solution `A` is a single isolated letter cell, so
the indexer hits its fatal branch; and the example grid `..B / ACE / ..E`
satisfies the no-isolated-cell precondition, so indexing succeeds. -/
theorem C7_isolated_cell_fatal_witness :
    from_solution ["A"] = none :=
  (C7_isolated_cell_fatal ["A"] _ rfl 1 1 rfl rfl).1
    ⟨(0, 0), by decide, by decide, by decide, by decide, by decide, by decide, by decide⟩

end Tui

namespace Cruciverbal

/-! ### The crossword generator, from `src/core/src/generator.rs`.

`std::collections::hash_map::DefaultHasher` (used only to derive one numeric
seed from the grid dimensions) is modelled by an explicit `seed : Nat`
parameter threaded to the pattern generators; theorems quantify over all
seeds, hence cover the actual hash value. -/

/-- `WordEntry` from `generator.rs`; the word is its character sequence. -/
structure WordEntry where
  word : List Char
  clue : String
deriving DecidableEq, Repr

/-- `WordEntry::new` (uppercases the word). -/
def WordEntry.new (word : List Char) (clue : String) : WordEntry :=
  { word := word.map Char.toUpper, clue := clue }

/-- `WordEntry::len`. -/
def WordEntry.len (e : WordEntry) : Nat :=
  e.word.length

/-- `Intersection` from `generator.rs` (never populated by the source: the
`intersections` field is always built as an empty vector). -/
structure Intersection where
  row : Nat
  col : Nat
  letter : Char
  word1_index : Nat
  word2_index : Nat
deriving DecidableEq, Repr

/-- `Placement` from `generator.rs`. -/
structure Placement where
  word : List Char
  clue : String
  row : Nat
  col : Nat
  direction : Direction
  intersections : List Intersection
deriving DecidableEq, Repr

/-- `GeneratorConfig` from `generator.rs`. -/
structure GeneratorConfig where
  width : Nat
  height : Nat
  max_words : Nat
  min_words : Nat
  symmetry : Bool
  max_attempts : Nat
  prefer_longer_words : Bool
deriving DecidableEq, Repr

/-- `GeneratorConfig::default`. -/
def GeneratorConfig.default : GeneratorConfig :=
  { width := 15, height := 15, max_words := 50, min_words := 20,
    symmetry := true, max_attempts := 100, prefer_longer_words := true }

/-- `WordSlot` from `generator.rs`. -/
structure WordSlot where
  row : Nat
  col : Nat
  length : Nat
  direction : Direction
deriving DecidableEq, Repr

/-- `GeneratorError` from `generator.rs`. -/
inductive GeneratorError where
  | MaxAttemptsExceeded
  | PlacementFailed (msg : String)
  | GridError (msg : String)
deriving DecidableEq, Repr

/-- `PuzzleQuality`: only the `word_count` field is modelled; the other
fields of the source are `f32` metrics that the acceptance test never
reads. -/
structure PuzzleQuality where
  word_count : Nat
deriving DecidableEq, Repr

/-- `CrosswordGenerator` from `generator.rs`.  `HashSet<(usize, usize)>` is
modelled as a duplicate-free list, `HashMap<(usize, usize), u32>` as an
association list with front-insert / first-match lookup. -/
structure CrosswordGenerator where
  config : GeneratorConfig
  word_list : List WordEntry
  grid : Grid
  placed_words : List Placement
  blocked_positions : List (Nat × Nat)
  word_starts : List ((Nat × Nat) × Nat)
  next_clue_number : Nat
deriving DecidableEq, Repr

/-- `CrosswordGenerator::new`. -/
def CrosswordGenerator.new (config : GeneratorConfig) : CrosswordGenerator :=
  { config := config, word_list := [], grid := Grid.new config.width config.height,
    placed_words := [], blocked_positions := [], word_starts := [],
    next_clue_number := 1 }

/-- Stable insertion for modelling Rust's stable `sort_by`: `lt b a` means
`b` must stay strictly before `a`. -/
def insertBy (lt : α → α → Bool) (a : α) : List α → List α
  | [] => [a]
  | b :: l => if lt b a then b :: insertBy lt a l else a :: b :: l

/-- Stable insertion sort modelling `sort_by` with strict comparator `lt`. -/
def sortBy (lt : α → α → Bool) : List α → List α
  | [] => []
  | a :: l => insertBy lt a (sortBy lt l)

/-- `CrosswordGenerator::add_words`: filter out words shorter than 3
characters or with a non-alphabetic character, uppercase the survivors, and
(optionally) sort by descending length. -/
def add_words (gen : CrosswordGenerator) (words : List (List Char × String)) :
    CrosswordGenerator :=
  let word_list := gen.word_list ++
    (words.filter (fun wc => decide (3 ≤ wc.1.length) && wc.1.all (fun c => c.isAlpha))).map
      (fun wc => WordEntry.new wc.1 wc.2)
  if gen.config.prefer_longer_words then
    { gen with word_list := sortBy (fun a b => b.len < a.len) word_list }
  else
    { gen with word_list := word_list }

/-- `HashSet::insert` under the membership view. -/
def insertBlocked (l : List (Nat × Nat)) (p : Nat × Nat) : List (Nat × Nat) :=
  if p ∈ l then l else p :: l

/-- `CrosswordGenerator::add_symmetric_blocked_cell`. -/
def add_symmetric_blocked_cell (gen : CrosswordGenerator) (row col : Nat) :
    CrosswordGenerator :=
  [(row, col), (gen.config.height - 1 - row, gen.config.width - 1 - col)].foldl
    (fun g rc =>
      if rc.1 < g.config.height ∧ rc.2 < g.config.width then
        { g with blocked_positions := insertBlocked g.blocked_positions rc,
                 grid := g.grid.set_cellD rc.1 rc.2 Cell.Blocked }
      else g) gen

/-- `CrosswordGenerator::generate_symmetric_pattern`; `seed` stands for the
`DefaultHasher` output over (width, height). -/
def generate_symmetric_pattern (seed : Nat) (gen : CrosswordGenerator) :
    CrosswordGenerator :=
  ((List.range (gen.config.height / 2 + 1)).flatMap (fun row =>
    (List.range (gen.config.width / 2 + 1)).map (fun col => (row, col)))).foldl
    (fun g rc =>
      if (rc.1 * 31 + rc.2 * 17 + seed) % 100 < 15 then
        add_symmetric_blocked_cell g rc.1 rc.2
      else g) gen

/-- `CrosswordGenerator::generate_random_pattern`; `seed` stands for the
`DefaultHasher` output over the width. -/
def generate_random_pattern (seed : Nat) (gen : CrosswordGenerator) :
    CrosswordGenerator :=
  ((List.range gen.config.height).flatMap (fun row =>
    (List.range gen.config.width).map (fun col => (row, col)))).foldl
    (fun g rc =>
      if (rc.1 * 31 + rc.2 * 17 + seed) % 100 < 12 then
        { g with blocked_positions := insertBlocked g.blocked_positions rc,
                 grid := g.grid.set_cellD rc.1 rc.2 Cell.Blocked }
      else g) gen

/-- `CrosswordGenerator::reset_grid`. -/
def reset_grid (seed : Nat) (gen : CrosswordGenerator) : CrosswordGenerator :=
  let g := { gen with
    grid := Grid.new gen.config.width gen.config.height,
    placed_words := ([] : List Placement),
    blocked_positions := ([] : List (Nat × Nat)),
    word_starts := ([] : List ((Nat × Nat) × Nat)),
    next_clue_number := 1 }
  if g.config.symmetry then generate_symmetric_pattern seed g
  else generate_random_pattern seed g

/-- One line scan of `find_word_slots` (both orientations share this shape):
fold the running open-run marker over the index range, closing runs at
blocked cells or the end, and keeping runs of length ≥ 3. -/
def find_word_slots (gen : CrosswordGenerator) : List WordSlot :=
  let horiz := (List.range gen.config.height).flatMap (fun row =>
    ((List.range (gen.config.width + 1)).foldl (fun st col =>
      if col = gen.config.width ∨ (row, col) ∈ gen.blocked_positions then
        match st.1 with
        | some start =>
          if 3 ≤ col - start then
            ((none : Option Nat),
              st.2 ++ [WordSlot.mk row start (col - start) Direction.Across])
          else ((none : Option Nat), st.2)
        | none => st
      else
        match st.1 with
        | some _ => st
        | none => (some col, st.2))
      ((none : Option Nat), ([] : List WordSlot))).2)
  let vert := (List.range gen.config.width).flatMap (fun col =>
    ((List.range (gen.config.height + 1)).foldl (fun st row =>
      if row = gen.config.height ∨ (row, col) ∈ gen.blocked_positions then
        match st.1 with
        | some start =>
          if 3 ≤ row - start then
            ((none : Option Nat),
              st.2 ++ [WordSlot.mk start col (row - start) Direction.Down])
          else ((none : Option Nat), st.2)
        | none => st
      else
        match st.1 with
        | some _ => st
        | none => (some row, st.2))
      ((none : Option Nat), ([] : List WordSlot))).2)
  sortBy (fun a b => b.length < a.length) (horiz ++ vert)

/-- `CrosswordGenerator::is_word_already_used`. -/
def is_word_already_used (gen : CrosswordGenerator) (word : List Char) : Bool :=
  gen.placed_words.any (fun p => p.word = word)

/-- `CrosswordGenerator::find_candidate_words`. -/
def find_candidate_words (gen : CrosswordGenerator) (slot : WordSlot) : List WordEntry :=
  gen.word_list.filter (fun entry =>
    decide (entry.len = slot.length) && !(is_word_already_used gen entry.word))

/-- The cell covered by index `i` of a slot. -/
def slotPos (slot : WordSlot) (i : Nat) : Nat × Nat :=
  match slot.direction with
  | Direction.Across => (slot.row, slot.col + i)
  | Direction.Down => (slot.row + i, slot.col)

/-- The cell covered by index `i` of a placement. -/
def placementPos (p : Placement) (i : Nat) : Nat × Nat :=
  match p.direction with
  | Direction.Across => (p.row, p.col + i)
  | Direction.Down => (p.row + i, p.col)

/-- `CrosswordGenerator::can_place_word`: an existing `Letter` must carry the
same character, a `Blocked` cell forbids placement, `Empty` and out-of-bounds
cells are accepted. -/
def can_place_word (gen : CrosswordGenerator) (word_entry : WordEntry)
    (slot : WordSlot) : Bool :=
  word_entry.word.enum.all (fun il =>
    match gen.grid.get_cell (slotPos slot il.1).1 (slotPos slot il.1).2 with
    | some (Cell.Letter correct _ _) => correct = il.2
    | some Cell.Blocked => false
    | _ => true)

/-- `CrosswordGenerator::place_word`. -/
def place_word (gen : CrosswordGenerator) (word_entry : WordEntry)
    (slot : WordSlot) : CrosswordGenerator :=
  let g' := word_entry.word.enum.foldl (fun g il =>
    g.set_cellD (slotPos slot il.1).1 (slotPos slot il.1).2
      (Cell.Letter il.2 none (if il.1 = 0 then some gen.next_clue_number else none)))
    gen.grid
  { gen with
    grid := g',
    placed_words := gen.placed_words ++
      [Placement.mk word_entry.word word_entry.clue slot.row slot.col slot.direction []],
    word_starts := ((slot.row, slot.col), gen.next_clue_number) :: gen.word_starts,
    next_clue_number := gen.next_clue_number + 1 }

/-- `CrosswordGenerator::is_position_used_by_other_words`. -/
def is_position_used_by_other_words (gen : CrosswordGenerator) (row col : Nat)
    (exclude : Placement) : Bool :=
  gen.placed_words.any (fun p =>
    if p.word = exclude.word then false
    else (List.range p.word.length).any (fun i => placementPos p i = (row, col)))

/-- First-match lookup in the association-list model of `HashMap::get`. -/
def lookupKey : List ((Nat × Nat) × Nat) → (Nat × Nat) → Option Nat
  | [], _ => none
  | kv :: l, q => if kv.1 = q then some kv.2 else lookupKey l q

/-- `HashMap::remove` in the association-list model. -/
def removeKey (l : List ((Nat × Nat) × Nat)) (q : Nat × Nat) :
    List ((Nat × Nat) × Nat) :=
  l.filter (fun kv => kv.1 ≠ q)

/-- `CrosswordGenerator::remove_last_word`: pop the last placement, clear its
cells unless used by another placed word, drop its start from `word_starts`,
decrement the counter. -/
def remove_last_word (gen : CrosswordGenerator) : CrosswordGenerator :=
  match gen.placed_words.getLast? with
  | none => gen
  | some placement =>
    let gen1 := { gen with placed_words := gen.placed_words.dropLast }
    let g' := (List.range placement.word.length).foldl (fun g i =>
      if is_position_used_by_other_words gen1 (placementPos placement i).1
          (placementPos placement i).2 placement then g
      else g.set_cellD (placementPos placement i).1 (placementPos placement i).2
        Cell.Empty) gen1.grid
    { gen1 with
      grid := g',
      word_starts := removeKey gen1.word_starts (placement.row, placement.col),
      next_clue_number := gen1.next_clue_number - 1 }

/-- `CrosswordGenerator::get_clue_number`. -/
def get_clue_number (gen : CrosswordGenerator) (row col : Nat) : Nat :=
  (lookupKey gen.word_starts (row, col)).getD 1

/-- The `for placement in &self.placed_words { crossword.add_clue(clue)? }`
loop of `build_crossword`. -/
def addCluesLoop (gen : CrosswordGenerator) :
    List Placement → Crossword → Except GeneratorError Crossword
  | [], cw => .ok cw
  | placement :: rest, cw =>
    let clue := Clue.new (get_clue_number gen placement.row placement.col)
      placement.direction placement.clue placement.word placement.row placement.col
    match cw.add_clue clue with
    | (cw', .ok _) => addCluesLoop gen rest cw'
    | (_, .error e) => .error (GeneratorError.PlacementFailed e)

/-- `CrosswordGenerator::build_crossword`. -/
def build_crossword (gen : CrosswordGenerator) : Except GeneratorError Crossword :=
  addCluesLoop gen gen.placed_words
    { Crossword.new "Generated Puzzle" "Cruciverbal Generator"
        gen.config.width gen.config.height with grid := gen.grid }

/-- The `for word_entry in candidate_words` loop of `backtrack`: try each
candidate, recursing through `next` (the search over the remaining slots),
undoing a placement whose sub-search failed. -/
def tryCandidates (slot : WordSlot) (next : CrosswordGenerator → CrosswordGenerator × Bool) :
    List WordEntry → CrosswordGenerator → CrosswordGenerator × Bool
  | [], gen => next gen
  | word_entry :: rest, gen =>
    if can_place_word gen word_entry slot then
      match next (place_word gen word_entry slot) with
      | (g2, true) => (g2, true)
      | (g2, false) => tryCandidates slot next rest (remove_last_word g2)
    else tryCandidates slot next rest gen

/-- `CrosswordGenerator::backtrack`, with the slot suffix as the recursion
argument (`slot_index` pointing at its head).  The `Bool` mirrors the
`Result`'s `is_ok` (the source never produces `Err` here). -/
def backtrack : CrosswordGenerator → List WordSlot → CrosswordGenerator × Bool
  | gen, [] => (gen, true)
  | gen, slot :: rest =>
    if gen.config.max_words ≤ gen.placed_words.length then (gen, true)
    else tryCandidates slot (fun g => backtrack g rest) (find_candidate_words gen slot) gen

/-- `CrosswordGenerator::fill_slots_with_backtracking`. -/
def fill_slots_with_backtracking (gen : CrosswordGenerator) (slots : List WordSlot) :
    CrosswordGenerator × Bool :=
  backtrack gen slots

/-- `CrosswordGenerator::evaluate_quality`, restricted to the `word_count`
field (the only one the generator's acceptance test reads). -/
def evaluate_quality (cw : Crossword) : PuzzleQuality :=
  { word_count := cw.clues.length }

/-- `CrosswordGenerator::attempt_generation`. -/
def attempt_generation (gen : CrosswordGenerator) :
    CrosswordGenerator × Except GeneratorError Crossword :=
  match fill_slots_with_backtracking gen (find_word_slots gen) with
  | (g2, true) => (g2, build_crossword g2)
  | (g2, false) => (g2, .error (GeneratorError.PlacementFailed "fill failed"))

/-- `CrosswordGenerator::shuffle_words`: ascending stable sort by word, then
reverse. -/
def shuffle_words (gen : CrosswordGenerator) : CrosswordGenerator :=
  { gen with word_list :=
      (sortBy (fun a b => decide (a.word < b.word)) gen.word_list).reverse }

/-- The `for attempt in 0..max_attempts` loop of `generate`, by remaining
attempts: `n` remaining corresponds to `attempt = max_attempts - n`, so the
`attempt < max_attempts - 1` shuffle guard is `0 < n - 1 + 1`, i.e. `0 < n`
after this attempt consumes one. -/
def generateLoop (seed : Nat) : CrosswordGenerator → Nat → Except GeneratorError Crossword
  | _, 0 => .error GeneratorError.MaxAttemptsExceeded
  | gen, n + 1 =>
    match attempt_generation (reset_grid seed gen) with
    | (g2, .ok crossword) =>
      if g2.config.min_words ≤ (evaluate_quality crossword).word_count then .ok crossword
      else generateLoop seed (if 0 < n then shuffle_words g2 else g2) n
    | (g2, .error _) => generateLoop seed (if 0 < n then shuffle_words g2 else g2) n

/-- `CrosswordGenerator::generate`. -/
def generate (seed : Nat) (gen : CrosswordGenerator) : Except GeneratorError Crossword :=
  generateLoop seed gen gen.config.max_attempts

/-- The public `generate_crossword` entry point. -/
def generate_crossword (words : List (List Char × String))
    (config : Option GeneratorConfig) (seed : Nat) : Except GeneratorError Crossword :=
  generate seed (add_words (CrosswordGenerator.new (config.getD GeneratorConfig.default)) words)

/-! ### Invariants preserved along the search -/

theorem config_foldl {α : Type} (f : CrosswordGenerator → α → CrosswordGenerator)
    (hf : ∀ g a, (f g a).config = g.config) :
    ∀ (l : List α) (g : CrosswordGenerator), (l.foldl f g).config = g.config := by
  intro l
  induction l with
  | nil => intro g; rfl
  | cons a t ih =>
    intro g
    rw [List.foldl_cons, ih, hf]

theorem config_add_symmetric_blocked_cell (g : CrosswordGenerator) (row col : Nat) :
    (add_symmetric_blocked_cell g row col).config = g.config := by
  unfold add_symmetric_blocked_cell
  apply config_foldl
  intro g' rc
  dsimp only
  split <;> rfl

theorem config_generate_symmetric_pattern (seed : Nat) (g : CrosswordGenerator) :
    (generate_symmetric_pattern seed g).config = g.config := by
  unfold generate_symmetric_pattern
  apply config_foldl
  intro g' rc
  dsimp only
  split
  · exact config_add_symmetric_blocked_cell g' rc.1 rc.2
  · rfl

theorem config_generate_random_pattern (seed : Nat) (g : CrosswordGenerator) :
    (generate_random_pattern seed g).config = g.config := by
  unfold generate_random_pattern
  apply config_foldl
  intro g' rc
  dsimp only
  split <;> rfl

theorem config_reset_grid (seed : Nat) (g : CrosswordGenerator) :
    (reset_grid seed g).config = g.config := by
  unfold reset_grid
  dsimp only
  split
  · rw [config_generate_symmetric_pattern]
  · rw [config_generate_random_pattern]

theorem config_place_word (g : CrosswordGenerator) (w : WordEntry) (s : WordSlot) :
    (place_word g w s).config = g.config :=
  rfl

theorem config_remove_last_word (g : CrosswordGenerator) :
    (remove_last_word g).config = g.config := by
  unfold remove_last_word
  cases g.placed_words.getLast? <;> rfl

theorem config_shuffle_words (g : CrosswordGenerator) :
    (shuffle_words g).config = g.config :=
  rfl

/-- Any property preserved by `place_word` and `remove_last_word`, and by the
continuation, is preserved by the candidate loop. -/
theorem tryCandidates_preserves (P : CrosswordGenerator → Prop) (slot : WordSlot)
    (next : CrosswordGenerator → CrosswordGenerator × Bool)
    (hnext : ∀ g, P g → P (next g).1)
    (hplace : ∀ g w s, P g → P (place_word g w s))
    (hremove : ∀ g, P g → P (remove_last_word g)) :
    ∀ (cands : List WordEntry) (g : CrosswordGenerator), P g →
      P (tryCandidates slot next cands g).1 := by
  intro cands
  induction cands with
  | nil => exact fun g hg => hnext g hg
  | cons w rest ih =>
    intro g hg
    unfold tryCandidates
    by_cases hc : can_place_word g w slot = true
    · rw [if_pos hc]
      have hp : P (next (place_word g w slot)).1 := hnext _ (hplace g w slot hg)
      cases hr : next (place_word g w slot) with
      | mk g2 ok =>
        rw [hr] at hp
        cases ok with
        | false => exact ih (remove_last_word g2) (hremove g2 hp)
        | true => exact hp
    · rw [if_neg hc]
      exact ih g hg

/-- Any property preserved by `place_word` and `remove_last_word` is
preserved by the whole backtracking search. -/
theorem backtrack_preserves (P : CrosswordGenerator → Prop)
    (hplace : ∀ g w s, P g → P (place_word g w s))
    (hremove : ∀ g, P g → P (remove_last_word g)) :
    ∀ (slots : List WordSlot) (g : CrosswordGenerator), P g →
      P (backtrack g slots).1 := by
  intro slots
  induction slots with
  | nil => exact fun g hg => hg
  | cons slot rest ih =>
    intro g hg
    unfold backtrack
    by_cases hmax : g.config.max_words ≤ g.placed_words.length
    · rw [if_pos hmax]
      exact hg
    · rw [if_neg hmax]
      exact tryCandidates_preserves P slot _ ih hplace hremove (find_candidate_words g slot) g hg

theorem config_attempt_generation (g : CrosswordGenerator) :
    (attempt_generation g).1.config = g.config := by
  unfold attempt_generation fill_slots_with_backtracking
  have h := backtrack_preserves (fun x => x.config = g.config)
    (fun g' w s hg' => by
      show (place_word g' w s).config = g.config
      rw [config_place_word]
      exact hg')
    (fun g' hg' => by
      show (remove_last_word g').config = g.config
      rw [config_remove_last_word]
      exact hg')
    (find_word_slots g) g rfl
  cases hb : backtrack g (find_word_slots g) with
  | mk g2 ok =>
    rw [hb] at h
    cases ok with
    | false => exact h
    | true => exact h

/-- Per-attempt behaviour of the retry loop: a returned crossword meets the
minimum word count of the (invariant) configuration, and the only surfaced
error is exhaustion. -/
theorem generateLoop_spec (seed : Nat) :
    ∀ (n : Nat) (gen : CrosswordGenerator),
      (∀ cw, generateLoop seed gen n = .ok cw → gen.config.min_words ≤ cw.clues.length)
      ∧ (∀ e, generateLoop seed gen n = .error e → e = GeneratorError.MaxAttemptsExceeded) := by
  intro n
  induction n with
  | zero =>
    intro gen
    constructor
    · intro cw h
      exact Except.noConfusion h
    · intro e h
      injection h with h'
      exact h'.symm
  | succ n ih =>
    intro gen
    have hcfg2 := config_attempt_generation (reset_grid seed gen)
    rw [config_reset_grid] at hcfg2
    constructor
    · intro cw h
      unfold generateLoop at h
      cases ha : attempt_generation (reset_grid seed gen) with
      | mk g2 res =>
        rw [ha] at hcfg2 h
        have hc2 : g2.config = gen.config := hcfg2
        cases res with
        | ok crossword =>
          dsimp only at h
          by_cases hq : g2.config.min_words ≤ (evaluate_quality crossword).word_count
          · rw [if_pos hq] at h
            injection h with hcw
            subst hcw
            rw [← hc2]
            exact hq
          · rw [if_neg hq] at h
            have hcfg3 : (if 0 < n then shuffle_words g2 else g2).config = gen.config := by
              split
              · rw [config_shuffle_words]
                exact hc2
              · exact hc2
            have hres := (ih _).1 cw h
            rw [hcfg3] at hres
            exact hres
        | error e =>
          dsimp only at h
          have hcfg3 : (if 0 < n then shuffle_words g2 else g2).config = gen.config := by
            split
            · rw [config_shuffle_words]
              exact hc2
            · exact hc2
          have hres := (ih _).1 cw h
          rw [hcfg3] at hres
          exact hres
    · intro e h
      unfold generateLoop at h
      cases ha : attempt_generation (reset_grid seed gen) with
      | mk g2 res =>
        rw [ha] at h
        cases res with
        | ok crossword =>
          dsimp only at h
          by_cases hq : g2.config.min_words ≤ (evaluate_quality crossword).word_count
          · rw [if_pos hq] at h
            exact Except.noConfusion h
          · rw [if_neg hq] at h
            exact (ih _).2 e h
        | error e' =>
          dsimp only at h
          exact (ih _).2 e h

/-- C5: `generate` either returns a crossword whose clue count meets the
configured minimum word count, or surfaces only the exhausted-attempts error
(`MaxAttemptsExceeded`) — a failing attempt never terminates the loop, and
running out of attempts (zero remaining) yields exactly that error. -/
theorem C5_generate_min_words_or_exhausted (seed : Nat) (gen : CrosswordGenerator) :
    (∀ cw, generate seed gen = .ok cw → gen.config.min_words ≤ cw.clues.length)
    ∧ (∀ e, generate seed gen = .error e → e = GeneratorError.MaxAttemptsExceeded)
    ∧ (∀ g0 : CrosswordGenerator, generateLoop seed g0 0
        = .error GeneratorError.MaxAttemptsExceeded) :=
  ⟨(generateLoop_spec seed gen.config.max_attempts gen).1,
   (generateLoop_spec seed gen.config.max_attempts gen).2,
   fun _ => rfl⟩

/-! ### Vocabulary filtering (C6) -/

/-- A word acceptable to `add_words`: at least 3 characters, all alphabetic. -/
def validWord (w : List Char) : Prop :=
  3 ≤ w.length ∧ ∀ c ∈ w, c.isAlpha = true

theorem toNat_ofNat_valid (n : Nat) (h : n.isValidChar) : (Char.ofNat n).toNat = n := by
  unfold Char.ofNat
  rw [dif_pos h]
  rfl

theorem uint32_le_iff (a b : UInt32) : a ≤ b ↔ a.toNat ≤ b.toNat := by
  rw [UInt32.le_def, BitVec.le_def]
  exact Iff.rfl

/-- `Char.toUpper` maps alphabetic characters to alphabetic characters. -/
theorem isAlpha_toUpper (c : Char) (h : c.isAlpha = true) : c.toUpper.isAlpha = true := by
  show (if c.toNat ≥ 97 ∧ c.toNat ≤ 122 then Char.ofNat (c.toNat - 32) else c).isAlpha = true
  by_cases hc : c.toNat ≥ 97 ∧ c.toNat ≤ 122
  · rw [if_pos hc]
    have ht : (Char.ofNat (c.toNat - 32)).toNat = c.toNat - 32 :=
      toNat_ofNat_valid _ (Or.inl (by omega))
    unfold Char.isAlpha Char.isUpper
    rw [Bool.or_eq_true, Bool.and_eq_true]
    left
    constructor
    · rw [decide_eq_true_eq, ge_iff_le, uint32_le_iff]
      show (65 : Nat) ≤ (Char.ofNat (c.toNat - 32)).toNat
      omega
    · rw [decide_eq_true_eq, uint32_le_iff]
      show (Char.ofNat (c.toNat - 32)).toNat ≤ (90 : Nat)
      omega
  · rw [if_neg hc]
    exact h

theorem validWord_map_toUpper (w : List Char) (h : validWord w) :
    validWord (w.map Char.toUpper) := by
  constructor
  · rw [List.length_map]
    exact h.1
  · intro c hc
    obtain ⟨c0, hc0, rfl⟩ := List.mem_map.mp hc
    exact isAlpha_toUpper c0 (h.2 c0 hc0)

theorem mem_insertBy {α : Type} (lt : α → α → Bool) (a x : α) :
    ∀ l : List α, x ∈ insertBy lt a l ↔ x = a ∨ x ∈ l := by
  intro l
  induction l with
  | nil => simp [insertBy]
  | cons b t ih =>
    unfold insertBy
    split
    · rw [List.mem_cons, ih, List.mem_cons]
      tauto
    · simp only [List.mem_cons]

theorem mem_sortBy {α : Type} (lt : α → α → Bool) (x : α) :
    ∀ l : List α, x ∈ sortBy lt l ↔ x ∈ l := by
  intro l
  induction l with
  | nil => exact Iff.rfl
  | cons a t ih =>
    unfold sortBy
    rw [mem_insertBy, ih, List.mem_cons]

/-- Every entry surviving `add_words` is a valid (≥3, alphabetic) uppercased
word, provided the pre-existing vocabulary was valid. -/
theorem add_words_valid (gen : CrosswordGenerator) (words : List (List Char × String))
    (hgen : ∀ e ∈ gen.word_list, validWord e.word) :
    ∀ e ∈ (add_words gen words).word_list, validWord e.word := by
  have hnew : ∀ e ∈ gen.word_list ++
      (words.filter (fun wc => decide (3 ≤ wc.1.length) && wc.1.all (fun c => c.isAlpha))).map
        (fun wc => WordEntry.new wc.1 wc.2), validWord e.word := by
    intro e he
    rcases List.mem_append.mp he with h | h
    · exact hgen e h
    · obtain ⟨wc, hwc, rfl⟩ := List.mem_map.mp h
      obtain ⟨hmem, hpred⟩ := List.mem_filter.mp hwc
      rw [Bool.and_eq_true] at hpred
      refine validWord_map_toUpper wc.1 ⟨of_decide_eq_true hpred.1, ?_⟩
      intro c hc
      rw [List.all_eq_true] at hpred
      exact hpred.2 c hc
  intro e he
  unfold add_words at he
  split at he
  · rw [mem_sortBy] at he
    exact hnew e he
  · exact hnew e he

/-- The validity invariant carried through the search: every vocabulary
entry and every placed word is valid. -/
def validState (g : CrosswordGenerator) : Prop :=
  (∀ e ∈ g.word_list, validWord e.word) ∧ (∀ p ∈ g.placed_words, validWord p.word)

theorem validState_place (g : CrosswordGenerator) (w : WordEntry) (s : WordSlot)
    (hg : validState g) (hw : validWord w.word) : validState (place_word g w s) := by
  constructor
  · exact hg.1
  · intro p hp
    rcases List.mem_append.mp hp with h | h
    · exact hg.2 p h
    · rw [List.mem_singleton] at h
      subst h
      exact hw

theorem validState_remove (g : CrosswordGenerator) (hg : validState g) :
    validState (remove_last_word g) := by
  unfold remove_last_word
  cases g.placed_words.getLast? with
  | none => exact hg
  | some placement =>
    constructor
    · exact hg.1
    · intro p hp
      exact hg.2 p ((List.dropLast_sublist g.placed_words).subset hp)

theorem tryCandidates_preserves_valid (slot : WordSlot)
    (next : CrosswordGenerator → CrosswordGenerator × Bool)
    (hnext : ∀ g, validState g → validState (next g).1) :
    ∀ (cands : List WordEntry), (∀ w ∈ cands, validWord w.word) →
      ∀ g, validState g → validState (tryCandidates slot next cands g).1 := by
  intro cands
  induction cands with
  | nil => exact fun _ g hg => hnext g hg
  | cons w rest ih =>
    intro hws g hg
    unfold tryCandidates
    by_cases hc : can_place_word g w slot = true
    · rw [if_pos hc]
      have hp : validState (next (place_word g w slot)).1 :=
        hnext _ (validState_place g w slot hg (hws w (List.mem_cons_self w rest)))
      cases hr : next (place_word g w slot) with
      | mk g2 ok =>
        rw [hr] at hp
        cases ok with
        | false =>
          exact ih (fun x hx => hws x (List.mem_cons_of_mem w hx)) _ (validState_remove g2 hp)
        | true => exact hp
    · rw [if_neg hc]
      exact ih (fun x hx => hws x (List.mem_cons_of_mem w hx)) g hg

theorem backtrack_preserves_valid :
    ∀ (slots : List WordSlot) (g : CrosswordGenerator), validState g →
      validState (backtrack g slots).1 := by
  intro slots
  induction slots with
  | nil => exact fun g hg => hg
  | cons slot rest ih =>
    intro g hg
    unfold backtrack
    by_cases hmax : g.config.max_words ≤ g.placed_words.length
    · rw [if_pos hmax]
      exact hg
    · rw [if_neg hmax]
      refine tryCandidates_preserves_valid slot _ ih (find_candidate_words g slot) ?_ g hg
      intro w hw
      obtain ⟨hmem, _⟩ := List.mem_filter.mp hw
      exact hg.1 w hmem

theorem foldl_preserves_prop {α : Type} (P : CrosswordGenerator → Prop)
    (f : CrosswordGenerator → α → CrosswordGenerator)
    (hf : ∀ g a, P g → P (f g a)) :
    ∀ (l : List α) (g : CrosswordGenerator), P g → P (l.foldl f g) := by
  intro l
  induction l with
  | nil => exact fun g h => h
  | cons a t ih => exact fun g h => ih (f g a) (hf g a h)

/-- `reset_grid` keeps the vocabulary and empties the placement stack. -/
theorem reset_grid_skeleton (seed : Nat) (gen : CrosswordGenerator) :
    (reset_grid seed gen).word_list = gen.word_list ∧
      (reset_grid seed gen).placed_words = [] := by
  unfold reset_grid
  dsimp only
  split
  · unfold generate_symmetric_pattern
    refine foldl_preserves_prop
      (fun x => x.word_list = gen.word_list ∧ x.placed_words = []) _ ?_ _ _ ⟨rfl, rfl⟩
    intro g' rc h
    dsimp only
    split
    · unfold add_symmetric_blocked_cell
      refine foldl_preserves_prop
        (fun x => x.word_list = gen.word_list ∧ x.placed_words = []) _ ?_ _ _ h
      intro g'' rc' h'
      dsimp only
      split
      · exact h'
      · exact h'
    · exact h
  · unfold generate_random_pattern
    refine foldl_preserves_prop
      (fun x => x.word_list = gen.word_list ∧ x.placed_words = []) _ ?_ _ _ ⟨rfl, rfl⟩
    intro g' rc h
    dsimp only
    split
    · exact h
    · exact h

theorem attempt_generation_fst (g : CrosswordGenerator) :
    (attempt_generation g).1 = (backtrack g (find_word_slots g)).1 := by
  unfold attempt_generation fill_slots_with_backtracking
  cases backtrack g (find_word_slots g) with
  | mk g2 ok => cases ok <;> rfl

theorem attempt_generation_ok (g g2 : CrosswordGenerator) (cw : Crossword)
    (h : attempt_generation g = (g2, .ok cw)) : build_crossword g2 = .ok cw := by
  unfold attempt_generation fill_slots_with_backtracking at h
  cases hb : backtrack g (find_word_slots g) with
  | mk gb ok =>
    rw [hb] at h
    cases ok with
    | false =>
      injection h with h1 h2
      exact Except.noConfusion h2
    | true =>
      injection h with h1 h2
      subst h1
      exact h2

/-- `add_clue` appends exactly the given clue on success. -/
theorem add_clue_ok_clues (cw : Crossword) (clue : Clue) (cw' : Crossword) (u : Unit)
    (h : cw.add_clue clue = (cw', Except.ok u)) : cw'.clues = cw.clues ++ [clue] := by
  unfold Crossword.add_clue at h
  cases hv : cw.validate_clue clue with
  | error e =>
    rw [hv] at h
    injection h with h1 h2
    exact Except.noConfusion h2
  | ok v =>
    rw [hv] at h
    cases hl : addClueLoop clue cw.grid clue.positions.enum with
    | error ge =>
      rw [hl] at h
      injection h with h1 h2
      exact Except.noConfusion h2
    | ok g' =>
      rw [hl] at h
      injection h with h1 h2
      rw [← h1]

/-- Every clue produced by `build_crossword`'s loop is either pre-existing or
the uppercased word of one of the listed placements. -/
theorem addCluesLoop_answers (gen : CrosswordGenerator) :
    ∀ (ps : List Placement) (cw cw' : Crossword),
      addCluesLoop gen ps cw = .ok cw' →
      ∀ clue ∈ cw'.clues, clue ∈ cw.clues ∨
        ∃ p ∈ ps, clue.answer = p.word.map Char.toUpper := by
  intro ps
  induction ps with
  | nil =>
    intro cw cw' h clue hclue
    injection h with h1
    subst h1
    exact Or.inl hclue
  | cons placement rest ih =>
    intro cw cw' h clue hclue
    unfold addCluesLoop at h
    dsimp only at h
    cases ha : cw.add_clue (Clue.new (get_clue_number gen placement.row placement.col)
        placement.direction placement.clue placement.word placement.row placement.col) with
    | mk cw1 res =>
      rw [ha] at h
      cases res with
      | error e =>
        dsimp only at h
        exact Except.noConfusion h
      | ok u =>
        dsimp only at h
        rcases ih cw1 cw' h clue hclue with hin | ⟨p, hp, hans⟩
        · rw [add_clue_ok_clues cw _ cw1 u ha] at hin
          rcases List.mem_append.mp hin with h1 | h1
          · exact Or.inl h1
          · rw [List.mem_singleton] at h1
            subst h1
            exact Or.inr ⟨placement, List.mem_cons_self placement rest, rfl⟩
        · exact Or.inr ⟨p, List.mem_cons_of_mem placement hp, hans⟩

/-- All clue answers of a successfully built crossword are uppercased placed
words. -/
theorem build_crossword_valid (g : CrosswordGenerator)
    (hP : ∀ p ∈ g.placed_words, validWord p.word) (cw : Crossword)
    (h : build_crossword g = .ok cw) :
    ∀ clue ∈ cw.clues, validWord clue.answer := by
  unfold build_crossword at h
  intro clue hclue
  rcases addCluesLoop_answers g g.placed_words _ cw h clue hclue with hin | ⟨p, hp, hans⟩
  · exact absurd hin (List.not_mem_nil clue)
  · rw [hans]
    exact validWord_map_toUpper p.word (hP p hp)

theorem word_list_shuffle_mem (g : CrosswordGenerator) (e : WordEntry)
    (h : e ∈ (shuffle_words g).word_list) : e ∈ g.word_list := by
  unfold shuffle_words at h
  rw [List.mem_reverse, mem_sortBy] at h
  exact h

/-- Any crossword returned by the retry loop has only valid clue answers,
provided the vocabulary is valid. -/
theorem generateLoop_ok_valid (seed : Nat) :
    ∀ (n : Nat) (gen : CrosswordGenerator) (cw : Crossword),
      generateLoop seed gen n = .ok cw →
      (∀ e ∈ gen.word_list, validWord e.word) →
      ∀ clue ∈ cw.clues, validWord clue.answer := by
  intro n
  induction n with
  | zero =>
    intro gen cw h _
    exact Except.noConfusion h
  | succ n ih =>
    intro gen cw h hvalid
    unfold generateLoop at h
    cases ha : attempt_generation (reset_grid seed gen) with
    | mk g2 res =>
      rw [ha] at h
      have hreset := reset_grid_skeleton seed gen
      have hP1 : validState (reset_grid seed gen) := by
        constructor
        · rw [hreset.1]
          exact hvalid
        · rw [hreset.2]
          intro p hp
          exact absurd hp (List.not_mem_nil p)
      have hP2 : validState g2 := by
        have hfst := attempt_generation_fst (reset_grid seed gen)
        rw [ha] at hfst
        have hbp := backtrack_preserves_valid (find_word_slots (reset_grid seed gen))
          (reset_grid seed gen) hP1
        rw [← hfst] at hbp
        exact hbp
      cases res with
      | ok crossword =>
        dsimp only at h
        by_cases hq : g2.config.min_words ≤ (evaluate_quality crossword).word_count
        · rw [if_pos hq] at h
          injection h with hcw
          subst hcw
          exact build_crossword_valid g2 hP2.2 _ (attempt_generation_ok _ _ _ ha)
        · rw [if_neg hq] at h
          refine ih _ cw h ?_
          intro e he
          split at he
          · exact hP2.1 e (word_list_shuffle_mem g2 e he)
          · exact hP2.1 e he
      | error e =>
        dsimp only at h
        refine ih _ cw h ?_
        intro e' he
        split at he
        · exact hP2.1 e' (word_list_shuffle_mem g2 e' he)
        · exact hP2.1 e' he

/-- C6: a word of length < 3 or containing a non-alphabetic character is
rejected at vocabulary intake and never appears as the answer of any clue of
any crossword returned by `generate_crossword`: every answer has length ≥ 3
and only alphabetic characters. -/
theorem C6_vocabulary_filtering (words : List (List Char × String))
    (config : Option GeneratorConfig) (seed : Nat) (cw : Crossword)
    (hgen : generate_crossword words config seed = .ok cw) :
    ∀ clue ∈ cw.clues, (3 ≤ clue.answer.length ∧ ∀ c ∈ clue.answer, c.isAlpha = true) ∧
      ∀ w : List Char, (w.length < 3 ∨ ∃ c ∈ w, ¬ c.isAlpha = true) → clue.answer ≠ w := by
  intro clue hclue
  have hvalid : validWord clue.answer := by
    unfold generate_crossword generate at hgen
    refine generateLoop_ok_valid seed _ _ cw hgen ?_ clue hclue
    refine add_words_valid _ words ?_
    intro e he
    exact absurd he (List.not_mem_nil e)
  refine ⟨hvalid, ?_⟩
  intro w hw he
  subst he
  rcases hw with hlen | ⟨c, hc, hna⟩
  · have h3 := hvalid.1
    omega
  · exact hna (hvalid.2 c hc)

/-! ### Intersection consistency (C1) -/

/-- Every derived position of the clue holds a `Letter` cell whose `correct`
character is the clue's answer character at that offset. -/
def clueConsistent (g : Grid) (clue : Clue) : Prop :=
  ∀ ip ∈ clue.positions.enum, ∃ ui n,
    g.get_cell ip.2.1 ip.2.2 = some (Cell.Letter (clue.answer.getD ip.1 'A') ui n)

theorem clueConsistent_mono {g g' : Grid} (hp : preservesCells g g') (clue : Clue)
    (h : clueConsistent g clue) : clueConsistent g' clue := by
  intro ip hip
  obtain ⟨ui, n, hc⟩ := h ip hip
  exact (hp ip.2.1 ip.2.2).2 _ ui n hc

/-- A successful `add_clue` keeps every earlier `Letter` cell's character and
leaves the new clue consistent in the resulting grid. -/
theorem add_clue_ok_consistent (cw : Crossword) (clue : Clue) (cw' : Crossword) (u : Unit)
    (h : cw.add_clue clue = (cw', Except.ok u)) :
    preservesCells cw.grid cw'.grid ∧ clueConsistent cw'.grid clue := by
  unfold Crossword.add_clue at h
  cases hv : cw.validate_clue clue with
  | error e =>
    rw [hv] at h
    injection h with h1 h2
    exact Except.noConfusion h2
  | ok v =>
    rw [hv] at h
    cases hl : addClueLoop clue cw.grid clue.positions.enum with
    | error ge =>
      rw [hl] at h
      injection h with h1 h2
      exact Except.noConfusion h2
    | ok g' =>
      rw [hl] at h
      injection h with h1 h2
      have hgrid : cw'.grid = g' := by rw [← h1]
      constructor
      · rw [hgrid]
        have hpres := addClueLoop_preserves clue clue.positions.enum cw.grid
        rw [hl] at hpres
        simp only [resGrid] at hpres
        exact hpres
      · rw [hgrid]
        intro ip hip
        exact addClueLoop_ok_chars clue _ _ _ hl ip hip

theorem addCluesLoop_consistent (gen : CrosswordGenerator) :
    ∀ (ps : List Placement) (cw cw' : Crossword),
      addCluesLoop gen ps cw = .ok cw' →
      (∀ clue ∈ cw.clues, clueConsistent cw.grid clue) →
      ∀ clue ∈ cw'.clues, clueConsistent cw'.grid clue := by
  intro ps
  induction ps with
  | nil =>
    intro cw cw' h hinv
    injection h with h1
    subst h1
    exact hinv
  | cons placement rest ih =>
    intro cw cw' h hinv
    unfold addCluesLoop at h
    dsimp only at h
    cases ha : cw.add_clue (Clue.new (get_clue_number gen placement.row placement.col)
        placement.direction placement.clue placement.word placement.row placement.col) with
    | mk cw1 res =>
      rw [ha] at h
      cases res with
      | error e =>
        dsimp only at h
        exact Except.noConfusion h
      | ok u =>
        dsimp only at h
        refine ih cw1 cw' h ?_
        obtain ⟨hpres, hcons⟩ := add_clue_ok_consistent cw _ cw1 u ha
        intro clue hclue
        rw [add_clue_ok_clues cw _ cw1 u ha] at hclue
        rcases List.mem_append.mp hclue with h1 | h1
        · exact clueConsistent_mono hpres clue (hinv clue h1)
        · rw [List.mem_singleton] at h1
          subst h1
          exact hcons

theorem build_crossword_consistent (g : CrosswordGenerator) (cw : Crossword)
    (h : build_crossword g = .ok cw) :
    ∀ clue ∈ cw.clues, clueConsistent cw.grid clue := by
  unfold build_crossword at h
  refine addCluesLoop_consistent g g.placed_words _ cw h ?_
  intro clue hclue
  exact absurd hclue (List.not_mem_nil clue)

theorem generateLoop_ok_consistent (seed : Nat) :
    ∀ (n : Nat) (gen : CrosswordGenerator) (cw : Crossword),
      generateLoop seed gen n = .ok cw →
      ∀ clue ∈ cw.clues, clueConsistent cw.grid clue := by
  intro n
  induction n with
  | zero =>
    intro gen cw h
    exact Except.noConfusion h
  | succ n ih =>
    intro gen cw h
    unfold generateLoop at h
    cases ha : attempt_generation (reset_grid seed gen) with
    | mk g2 res =>
      rw [ha] at h
      cases res with
      | ok crossword =>
        dsimp only at h
        by_cases hq : g2.config.min_words ≤ (evaluate_quality crossword).word_count
        · rw [if_pos hq] at h
          injection h with hcw
          subst hcw
          exact build_crossword_consistent g2 _ (attempt_generation_ok _ _ _ ha)
        · rw [if_neg hq] at h
          exact ih _ cw h
      | error e =>
        dsimp only at h
        exact ih _ cw h

/-- C1: intersection consistency.  In every crossword returned successfully
by `generate_crossword`, any two clues whose derived position lists share a
cell carry the same character at that cell: the answer character of the first
clue at the cell's offset within the first answer equals the answer character
of the second clue at the cell's offset within the second answer. -/
theorem C1_intersection_consistency (words : List (List Char × String))
    (config : Option GeneratorConfig) (seed : Nat) (cw : Crossword)
    (hgen : generate_crossword words config seed = .ok cw) :
    ∀ c1 ∈ cw.clues, ∀ c2 ∈ cw.clues, ∀ (i j : Nat) (p : Nat × Nat),
      (i, p) ∈ c1.positions.enum → (j, p) ∈ c2.positions.enum →
      c1.answer.getD i 'A' = c2.answer.getD j 'A' := by
  intro c1 h1 c2 h2 i j p hp1 hp2
  unfold generate_crossword generate at hgen
  obtain ⟨ui1, n1, e1⟩ := generateLoop_ok_consistent seed _ _ cw hgen c1 h1 (i, p) hp1
  obtain ⟨ui2, n2, e2⟩ := generateLoop_ok_consistent seed _ _ cw hgen c2 h2 (j, p) hp2
  rw [e1] at e2
  injection e2 with he
  injection he with hch hui hn

/-! ### Determinism of the retry loop's pattern and reshuffle (C8) -/

/-- The generator-state fields that determine the blocked pattern. -/
def sameSkeleton (g g' : CrosswordGenerator) : Prop :=
  g.config = g'.config ∧ g.blocked_positions = g'.blocked_positions ∧ g.grid = g'.grid

theorem foldl_rel {α : Type} (R : CrosswordGenerator → CrosswordGenerator → Prop)
    (f : CrosswordGenerator → α → CrosswordGenerator)
    (hf : ∀ g g' a, R g g' → R (f g a) (f g' a)) :
    ∀ (l : List α) (g g' : CrosswordGenerator), R g g' → R (l.foldl f g) (l.foldl f g') := by
  intro l
  induction l with
  | nil => exact fun g g' h => h
  | cons a t ih => exact fun g g' h => ih _ _ (hf g g' a h)

theorem add_symmetric_blocked_cell_same (g g' : CrosswordGenerator) (row col : Nat)
    (h : sameSkeleton g g') :
    sameSkeleton (add_symmetric_blocked_cell g row col)
      (add_symmetric_blocked_cell g' row col) := by
  obtain ⟨hc, hb, hg⟩ := h
  unfold add_symmetric_blocked_cell
  rw [← hc]
  refine foldl_rel sameSkeleton _ ?_ _ g g' ⟨hc, hb, hg⟩
  intro x y a hxy
  obtain ⟨hc2, hb2, hg2⟩ := hxy
  rw [← hc2, ← hb2, ← hg2]
  by_cases hcond : a.1 < x.config.height ∧ a.2 < x.config.width
  · rw [if_pos hcond, if_pos hcond]
    exact ⟨rfl, rfl, rfl⟩
  · rw [if_neg hcond, if_neg hcond]
    exact ⟨hc2, hb2, hg2⟩

theorem generate_symmetric_pattern_same (seed : Nat) (g g' : CrosswordGenerator)
    (h : sameSkeleton g g') :
    sameSkeleton (generate_symmetric_pattern seed g)
      (generate_symmetric_pattern seed g') := by
  obtain ⟨hc, hb, hg⟩ := h
  unfold generate_symmetric_pattern
  rw [← hc]
  refine foldl_rel sameSkeleton _ ?_ _ g g' ⟨hc, hb, hg⟩
  intro x y a hxy
  by_cases hcond : (a.1 * 31 + a.2 * 17 + seed) % 100 < 15
  · rw [if_pos hcond, if_pos hcond]
    exact add_symmetric_blocked_cell_same x y a.1 a.2 hxy
  · rw [if_neg hcond, if_neg hcond]
    exact hxy

theorem generate_random_pattern_same (seed : Nat) (g g' : CrosswordGenerator)
    (h : sameSkeleton g g') :
    sameSkeleton (generate_random_pattern seed g)
      (generate_random_pattern seed g') := by
  obtain ⟨hc, hb, hg⟩ := h
  unfold generate_random_pattern
  rw [← hc]
  refine foldl_rel sameSkeleton _ ?_ _ g g' ⟨hc, hb, hg⟩
  intro x y a hxy
  obtain ⟨hc2, hb2, hg2⟩ := hxy
  rw [← hb2, ← hg2]
  by_cases hcond : (a.1 * 31 + a.2 * 17 + seed) % 100 < 12
  · rw [if_pos hcond, if_pos hcond]
    exact ⟨hc2, rfl, rfl⟩
  · rw [if_neg hcond, if_neg hcond]
    exact ⟨hc2, hb2, hg2⟩

/-- The blocked pattern computed by `reset_grid` depends only on the
configuration (the hash seed only hashes the dimensions), never on the
state reached by earlier attempts. -/
theorem reset_grid_same (seed : Nat) (g1 g2 : CrosswordGenerator)
    (hc : g1.config = g2.config) :
    sameSkeleton (reset_grid seed g1) (reset_grid seed g2) := by
  simp only [reset_grid]
  have hsym2 := hc
  by_cases hsym : g1.config.symmetry = true
  · rw [if_pos hsym, if_pos (by rw [← hc]; exact hsym)]
    exact generate_symmetric_pattern_same seed _ _ ⟨hc, rfl, by rw [hc]⟩
  · rw [if_neg hsym, if_neg (by rw [← hc]; exact hsym)]
    exact generate_random_pattern_same seed _ _ ⟨hc, rfl, by rw [hc]⟩

theorem insertBy_perm {α : Type} (lt : α → α → Bool) (a : α) :
    ∀ l : List α, (insertBy lt a l).Perm (a :: l) := by
  intro l
  induction l with
  | nil => exact List.Perm.refl _
  | cons b t ih =>
    unfold insertBy
    split
    · exact (ih.cons b).trans (List.Perm.swap a b t)
    · exact List.Perm.refl _

theorem sortBy_perm {α : Type} (lt : α → α → Bool) :
    ∀ l : List α, (sortBy lt l).Perm l := by
  intro l
  induction l with
  | nil => exact List.Perm.refl _
  | cons a t ih =>
    unfold sortBy
    exact (insertBy_perm lt a (sortBy lt t)).trans (ih.cons a)

theorem insertBy_pairwise {α : Type} (lt : α → α → Bool)
    (hasymm : ∀ a b, lt a b = true → lt b a = false)
    (hnt : ∀ a b c, lt b a = false → lt c b = false → lt c a = false)
    (a : α) :
    ∀ l : List α, l.Pairwise (fun x y => lt y x = false) →
      (insertBy lt a l).Pairwise (fun x y => lt y x = false) := by
  intro l
  induction l with
  | nil =>
    intro _
    exact List.pairwise_singleton _ a
  | cons b t ih =>
    intro hp
    obtain ⟨hbt, hpt⟩ := List.pairwise_cons.mp hp
    unfold insertBy
    by_cases hba : lt b a = true
    · rw [if_pos hba]
      refine List.pairwise_cons.mpr ⟨?_, ih hpt⟩
      intro x hx
      rw [mem_insertBy] at hx
      rcases hx with rfl | hxt
      · exact hasymm b x hba
      · exact hbt x hxt
    · have hba' : lt b a = false := by
        cases h : lt b a
        · rfl
        · exact absurd h hba
      rw [if_neg hba]
      refine List.pairwise_cons.mpr ⟨?_, hp⟩
      intro x hx
      rcases List.mem_cons.mp hx with rfl | hxt
      · exact hba'
      · exact hnt a b x hba' (hbt x hxt)

theorem sortBy_pairwise {α : Type} (lt : α → α → Bool)
    (hasymm : ∀ a b, lt a b = true → lt b a = false)
    (hnt : ∀ a b c, lt b a = false → lt c b = false → lt c a = false) :
    ∀ l : List α, (sortBy lt l).Pairwise (fun x y => lt y x = false) := by
  intro l
  induction l with
  | nil => exact List.Pairwise.nil
  | cons a t ih =>
    unfold sortBy
    exact insertBy_pairwise lt hasymm hnt a _ ih

/-- `shuffle_words` is a deterministic re-sort: the new ordering is a
permutation of the vocabulary in descending word order. -/
theorem shuffle_words_spec (g : CrosswordGenerator) :
    (shuffle_words g).word_list.Perm g.word_list ∧
      (shuffle_words g).word_list.Pairwise
        (fun a b => decide (a.word < b.word) = false) := by
  have hasymm : ∀ a b : WordEntry,
      decide (a.word < b.word) = true →
        decide (b.word < a.word) = false := by
    intro a b h
    exact decide_eq_false (lt_asymm (of_decide_eq_true h))
  have hnt : ∀ a b c : WordEntry,
      decide (b.word < a.word) = false →
        decide (c.word < b.word) = false →
        decide (c.word < a.word) = false := by
    intro a b c h1 h2
    refine decide_eq_false (not_lt.mpr ?_)
    exact le_trans (not_lt.mp (of_decide_eq_false h1)) (not_lt.mp (of_decide_eq_false h2))
  constructor
  · exact (List.reverse_perm _).trans
      (sortBy_perm (fun a b => decide (a.word < b.word)) g.word_list)
  · show ((sortBy (fun a b => decide (a.word < b.word))
        g.word_list).reverse).Pairwise _
    rw [List.pairwise_reverse]
    exact sortBy_pairwise _ hasymm hnt g.word_list

/-- C8 (amended): nothing is re-randomized between attempts.  The blocked
pattern after any reset depends only on the configuration (the "seed" hash
covers just the dimensions), so every attempt of one call sees the same
pattern, and `shuffle_words` deterministically re-sorts the vocabulary into
descending word order (a permutation of it). -/
theorem C8_retry_determinism_amended (seed : Nat) (g1 g2 g : CrosswordGenerator)
    (hc : g1.config = g2.config) :
    (reset_grid seed g1).blocked_positions = (reset_grid seed g2).blocked_positions ∧
      (shuffle_words g).word_list.Perm g.word_list ∧
      (shuffle_words g).word_list.Pairwise
        (fun a b => decide (a.word < b.word) = false) :=
  ⟨(reset_grid_same seed g1 g2 hc).2.1, (shuffle_words_spec g).1, (shuffle_words_spec g).2⟩

/-! ### Undoing a placement (C10) -/

theorem get_cell_set_cellD (g : Grid) (row col : Nat) (cell : Cell) (r c : Nat) :
    (g.set_cellD row col cell).get_cell r c =
      if r = row ∧ c = col ∧ row < g.height ∧ col < g.width then
        (g.get_cell r c).map (fun _ => cell)
      else g.get_cell r c := by
  unfold Grid.set_cellD
  cases hsc : g.set_cell row col cell with
  | error e =>
    unfold Grid.set_cell at hsc
    by_cases hb : g.height ≤ row ∨ g.width ≤ col
    · have hn : ¬ (r = row ∧ c = col ∧ row < g.height ∧ col < g.width) := by
        intro hcon
        rcases hb with h | h
        · exact absurd hcon.2.2.1 (not_lt.mpr h)
        · exact absurd hcon.2.2.2 (not_lt.mpr h)
      rw [if_neg hn]
    · rw [if_neg hb] at hsc
      exact Except.noConfusion hsc
  | ok g2 =>
    unfold Grid.set_cell at hsc
    by_cases hb : g.height ≤ row ∨ g.width ≤ col
    · rw [if_pos hb] at hsc
      exact Except.noConfusion hsc
    · rw [if_neg hb] at hsc
      injection hsc with h2
      subst h2
      push_neg at hb
      show (g.setL row col cell).get_cell r c = _
      rw [get_cell_setL]
      by_cases hrc : r = row ∧ c = col
      · rw [if_pos hrc, if_pos ⟨hrc.1, hrc.2, hb.1, hb.2⟩]
      · rw [if_neg hrc, if_neg (fun hcon => hrc ⟨hcon.1, hcon.2.1⟩)]

theorem set_cellD_dims (g : Grid) (row col : Nat) (cell : Cell) :
    (g.set_cellD row col cell).width = g.width ∧
      (g.set_cellD row col cell).height = g.height := by
  unfold Grid.set_cellD Grid.set_cell
  by_cases hb : g.height ≤ row ∨ g.width ≤ col
  · rw [if_pos hb]
    exact ⟨rfl, rfl⟩
  · rw [if_neg hb]
    exact ⟨rfl, rfl⟩

theorem foldl_dims {α : Type} (f : Grid → α → Grid)
    (hf : ∀ g a, (f g a).width = g.width ∧ (f g a).height = g.height) :
    ∀ (L : List α) (g0 : Grid),
      (L.foldl f g0).width = g0.width ∧ (L.foldl f g0).height = g0.height := by
  intro L
  induction L with
  | nil => exact fun g0 => ⟨rfl, rfl⟩
  | cons a t ih =>
    intro g0
    have h1 := hf g0 a
    have h2 := ih (f g0 a)
    exact ⟨h2.1.trans h1.1, h2.2.trans h1.2⟩

/-- A fold of bounded writes leaves every cell untouched that no in-bounds
write targets. -/
theorem write_fold_get {α : Type} (posF : α → Nat × Nat) (valF : α → Cell) :
    ∀ (L : List α) (g0 : Grid) (r c : Nat),
      (∀ a ∈ L, posF a ≠ (r, c) ∨
        ¬ ((posF a).1 < g0.height ∧ (posF a).2 < g0.width)) →
      (L.foldl (fun g a => g.set_cellD (posF a).1 (posF a).2 (valF a)) g0).get_cell r c =
        g0.get_cell r c := by
  intro L
  induction L with
  | nil => intro g0 r c _; rfl
  | cons a rest ih =>
    intro g0 r c h
    have hd := set_cellD_dims g0 (posF a).1 (posF a).2 (valF a)
    have hstep : (g0.set_cellD (posF a).1 (posF a).2 (valF a)).get_cell r c =
        g0.get_cell r c := by
      rw [get_cell_set_cellD]
      have hn : ¬ (r = (posF a).1 ∧ c = (posF a).2 ∧
          (posF a).1 < g0.height ∧ (posF a).2 < g0.width) := by
        intro hcon
        rcases h a (List.mem_cons_self a rest) with hne | hnb
        · exact hne (Prod.ext hcon.1.symm hcon.2.1.symm)
        · exact hnb ⟨hcon.2.2.1, hcon.2.2.2⟩
      rw [if_neg hn]
    have htrans : ∀ x ∈ rest, posF x ≠ (r, c) ∨
        ¬ ((posF x).1 < (g0.set_cellD (posF a).1 (posF a).2 (valF a)).height ∧
          (posF x).2 < (g0.set_cellD (posF a).1 (posF a).2 (valF a)).width) := by
      intro x hx
      rcases h x (List.mem_cons_of_mem a hx) with h1 | h2
      · exact Or.inl h1
      · right
        rw [hd.2, hd.1]
        exact h2
    rw [List.foldl_cons, ih _ r c htrans, hstep]

/-- Writes never create or destroy cells: presence at a point is invariant. -/
theorem write_fold_presence {α : Type} (posF : α → Nat × Nat) (valF : α → Cell) :
    ∀ (L : List α) (g0 : Grid) (r c : Nat),
      ((L.foldl (fun g a => g.set_cellD (posF a).1 (posF a).2 (valF a)) g0).get_cell r c
          = none) ↔
        (g0.get_cell r c = none) := by
  intro L
  induction L with
  | nil => exact fun g0 r c => Iff.rfl
  | cons a rest ih =>
    intro g0 r c
    rw [List.foldl_cons, ih, get_cell_set_cellD]
    split
    · cases g0.get_cell r c <;> simp
    · exact Iff.rfl

/-- Closed form of a fold writing one constant cell value at a list of
positions. -/
theorem clear_fold_get (v : Cell) (posF : Nat → Nat × Nat) :
    ∀ (L : List Nat) (g0 : Grid) (r c : Nat),
      (L.foldl (fun g i => g.set_cellD (posF i).1 (posF i).2 v) g0).get_cell r c =
        if (r, c) ∈ L.map posF ∧ r < g0.height ∧ c < g0.width then
          (g0.get_cell r c).map (fun _ => v)
        else g0.get_cell r c := by
  intro L
  induction L with
  | nil =>
    intro g0 r c
    rw [if_neg (fun hcon => List.not_mem_nil (r, c) hcon.1)]
    rfl
  | cons i0 rest ih =>
    intro g0 r c
    have hd := set_cellD_dims g0 (posF i0).1 (posF i0).2 v
    rw [List.foldl_cons, ih, hd.1, hd.2, get_cell_set_cellD, List.map_cons]
    by_cases hq : posF i0 = (r, c)
    · by_cases hbnd : r < g0.height ∧ c < g0.width
      · have h1 : r = (posF i0).1 ∧ c = (posF i0).2 ∧
            (posF i0).1 < g0.height ∧ (posF i0).2 < g0.width := by
          rw [hq]
          exact ⟨rfl, rfl, hbnd.1, hbnd.2⟩
        rw [if_pos h1]
        have h2 : (r, c) ∈ posF i0 :: rest.map posF ∧ r < g0.height ∧ c < g0.width :=
          ⟨by rw [hq]; exact List.mem_cons_self _ _, hbnd⟩
        rw [if_pos h2]
        by_cases hrest : (r, c) ∈ rest.map posF ∧ r < g0.height ∧ c < g0.width
        · rw [if_pos hrest]
          cases g0.get_cell r c <;> rfl
        · rw [if_neg hrest]
      · have h1 : ¬ (r = (posF i0).1 ∧ c = (posF i0).2 ∧
            (posF i0).1 < g0.height ∧ (posF i0).2 < g0.width) := by
          intro hcon
          rw [hq] at hcon
          exact hbnd ⟨hcon.2.2.1, hcon.2.2.2⟩
        rw [if_neg h1]
        have h2 : ¬ ((r, c) ∈ posF i0 :: rest.map posF ∧
            r < g0.height ∧ c < g0.width) := fun hcon => hbnd hcon.2
        rw [if_neg h2]
        have h3 : ¬ ((r, c) ∈ rest.map posF ∧ r < g0.height ∧ c < g0.width) :=
          fun hcon => hbnd hcon.2
        rw [if_neg h3]
    · have h1 : ¬ (r = (posF i0).1 ∧ c = (posF i0).2 ∧
          (posF i0).1 < g0.height ∧ (posF i0).2 < g0.width) := by
        intro hcon
        exact hq (Prod.ext hcon.1.symm hcon.2.1.symm)
      rw [if_neg h1]
      by_cases hrest : (r, c) ∈ rest.map posF ∧ r < g0.height ∧ c < g0.width
      · rw [if_pos hrest, if_pos ⟨List.mem_cons_of_mem _ hrest.1, hrest.2⟩]
      · rw [if_neg hrest]
        have h2 : ¬ ((r, c) ∈ posF i0 :: rest.map posF ∧
            r < g0.height ∧ c < g0.width) := by
          intro hcon
          rcases List.mem_cons.mp hcon.1 with he | he
          · exact hq he.symm
          · exact hrest ⟨he, hcon.2⟩
        rw [if_neg h2]

theorem foldl_ext_mem {α β : Type} (f g : β → α → β) :
    ∀ (l : List α), (∀ a ∈ l, ∀ x, f x a = g x a) →
      ∀ (b : β), l.foldl f b = l.foldl g b := by
  intro l
  induction l with
  | nil => intro _ b; rfl
  | cons a t ih =>
    intro h b
    rw [List.foldl_cons, List.foldl_cons, h a (List.mem_cons_self a t) b]
    exact ih (fun x hx => h x (List.mem_cons_of_mem a hx)) _

/-- Removing a freshly-inserted key restores the map when no earlier entry
shares the key (otherwise `remove` also deletes the earlier entry). -/
theorem removeKey_cons_self (ws : List ((Nat × Nat) × Nat)) (k : Nat × Nat) (n : Nat)
    (h : ∀ kv ∈ ws, kv.1 ≠ k) : removeKey ((k, n) :: ws) k = ws := by
  unfold removeKey
  rw [List.filter_cons]
  have hk : decide ((k, n).1 ≠ k) = false := by
    simp
  rw [hk, if_neg (by decide : ¬ (false = true))]
  exact List.filter_eq_self.mpr (fun kv hkv => decide_eq_true (h kv hkv))

theorem used_by_others_false (g : CrosswordGenerator) (pl : Placement) (pos : Nat × Nat)
    (h : ∀ p ∈ g.placed_words, ∀ j, j < p.word.length → placementPos p j ≠ pos) :
    is_position_used_by_other_words g pos.1 pos.2 pl = false := by
  unfold is_position_used_by_other_words
  rw [List.any_eq_false]
  intro p hp
  by_cases hw : p.word = pl.word
  · rw [if_pos hw]
    exact Bool.false_ne_true
  · rw [if_neg hw]
    intro hcon
    rw [List.any_eq_true] at hcon
    obtain ⟨i, hi, hdec⟩ := hcon
    rw [List.mem_range] at hi
    exact h p hp i hi (of_decide_eq_true hdec)

theorem place_word_grid_dims (gen : CrosswordGenerator) (w : WordEntry) (slot : WordSlot) :
    (place_word gen w slot).grid.width = gen.grid.width ∧
      (place_word gen w slot).grid.height = gen.grid.height := by
  refine foldl_dims _ ?_ _ _
  intro g a
  exact set_cellD_dims g _ _ _

theorem place_word_grid_presence (gen : CrosswordGenerator) (w : WordEntry)
    (slot : WordSlot) (r c : Nat) :
    ((place_word gen w slot).grid.get_cell r c = none) ↔
      (gen.grid.get_cell r c = none) := by
  refine write_fold_presence (fun il => slotPos slot il.1)
    (fun il => Cell.Letter il.2 none (if il.1 = 0 then some gen.next_clue_number else none))
    w.word.enum gen.grid r c

theorem place_word_grid_get (gen : CrosswordGenerator) (w : WordEntry) (slot : WordSlot)
    (r c : Nat)
    (h : ∀ i, i < w.word.length → slotPos slot i ≠ (r, c) ∨
      ¬ ((slotPos slot i).1 < gen.grid.height ∧ (slotPos slot i).2 < gen.grid.width)) :
    (place_word gen w slot).grid.get_cell r c = gen.grid.get_cell r c := by
  refine write_fold_get (fun il => slotPos slot il.1)
    (fun il => Cell.Letter il.2 none (if il.1 = 0 then some gen.next_clue_number else none))
    w.word.enum gen.grid r c ?_
  intro a ha
  exact h a.1 (List.fst_lt_of_mem_enum ha)

/-- The state `remove_last_word` reaches right after a `place_word`, with the
popped placement spelled out. -/
theorem remove_place_eq (gen : CrosswordGenerator) (w : WordEntry) (slot : WordSlot) :
    remove_last_word (place_word gen w slot) =
      { place_word gen w slot with
        placed_words := gen.placed_words,
        grid := (List.range w.word.length).foldl (fun g i =>
          if is_position_used_by_other_words
              { place_word gen w slot with placed_words := gen.placed_words }
              (slotPos slot i).1 (slotPos slot i).2
              (Placement.mk w.word w.clue slot.row slot.col slot.direction [])
            then g
            else g.set_cellD (slotPos slot i).1 (slotPos slot i).2 Cell.Empty)
          (place_word gen w slot).grid,
        word_starts := removeKey
          (((slot.row, slot.col), gen.next_clue_number) :: gen.word_starts)
          (slot.row, slot.col),
        next_clue_number := gen.next_clue_number + 1 - 1 } := by
  unfold remove_last_word
  rw [show (place_word gen w slot).placed_words =
      gen.placed_words ++ [Placement.mk w.word w.clue slot.row slot.col slot.direction []]
    from rfl]
  rw [List.getLast?_concat]
  dsimp only
  rw [List.dropLast_concat]
  rw [show (place_word gen w slot).word_starts =
      ((slot.row, slot.col), gen.next_clue_number) :: gen.word_starts from rfl]
  rw [show (place_word gen w slot).next_clue_number = gen.next_clue_number + 1 from rfl]
  rfl

/-- C10 (amended): place-then-remove restores the state exactly when the
placed word is fresh: its cells are `Empty` or out of bounds beforehand, no
earlier placement covers any of its cells, and no `word_starts` entry already
uses its start key.  (The counterexample shows both failure modes once cells
or start keys are shared.) -/
theorem C10_place_remove_amended (gen : CrosswordGenerator) (w : WordEntry)
    (slot : WordSlot)
    (hempty : ∀ i, i < w.word.length →
      gen.grid.get_cell (slotPos slot i).1 (slotPos slot i).2 = some Cell.Empty ∨
        gen.grid.get_cell (slotPos slot i).1 (slotPos slot i).2 = none)
    (hstart : ∀ kv ∈ gen.word_starts, kv.1 ≠ (slot.row, slot.col))
    (hcross : ∀ p ∈ gen.placed_words, ∀ j, j < p.word.length → ∀ i, i < w.word.length →
      placementPos p j ≠ slotPos slot i) :
    (remove_last_word (place_word gen w slot)).placed_words = gen.placed_words ∧
      (remove_last_word (place_word gen w slot)).word_starts = gen.word_starts ∧
      (remove_last_word (place_word gen w slot)).next_clue_number =
        gen.next_clue_number ∧
      ∀ r c, (remove_last_word (place_word gen w slot)).grid.get_cell r c =
        gen.grid.get_cell r c := by
  rw [remove_place_eq]
  refine ⟨rfl, ?_, ?_, ?_⟩
  · exact removeKey_cons_self gen.word_starts (slot.row, slot.col)
      gen.next_clue_number hstart
  · exact Nat.add_sub_cancel gen.next_clue_number 1
  · intro r c
    have hext : ∀ i ∈ List.range w.word.length, ∀ x : Grid,
        (if is_position_used_by_other_words
            { place_word gen w slot with placed_words := gen.placed_words }
            (slotPos slot i).1 (slotPos slot i).2
            (Placement.mk w.word w.clue slot.row slot.col slot.direction [])
          then x
          else x.set_cellD (slotPos slot i).1 (slotPos slot i).2 Cell.Empty) =
          x.set_cellD (slotPos slot i).1 (slotPos slot i).2 Cell.Empty := by
      intro i hi x
      rw [List.mem_range] at hi
      rw [used_by_others_false
        { place_word gen w slot with placed_words := gen.placed_words }
        (Placement.mk w.word w.clue slot.row slot.col slot.direction [])
        (slotPos slot i)
        (fun p hp j hj => hcross p hp j hj i hi)]
      rw [if_neg (by decide : ¬ (false = true))]
    rw [foldl_ext_mem _
      (fun g i => g.set_cellD (slotPos slot i).1 (slotPos slot i).2 Cell.Empty)
      (List.range w.word.length) hext (place_word gen w slot).grid]
    rw [clear_fold_get Cell.Empty (fun i => slotPos slot i)]
    rw [(place_word_grid_dims gen w slot).2, (place_word_grid_dims gen w slot).1]
    by_cases hcov : (r, c) ∈ (List.range w.word.length).map (fun i => slotPos slot i)
    · by_cases hbnd : r < gen.grid.height ∧ c < gen.grid.width
      · rw [if_pos ⟨hcov, hbnd⟩]
        obtain ⟨i, hi, hpos⟩ := List.mem_map.mp hcov
        rw [List.mem_range] at hi
        rcases hempty i hi with he | he
        · rw [hpos] at he
          have hsome : gen.grid.get_cell r c = some Cell.Empty := he
          cases hG : (place_word gen w slot).grid.get_cell r c with
          | none =>
            exfalso
            have hnone := (place_word_grid_presence gen w slot r c).mp hG
            rw [hsome] at hnone
            exact Option.noConfusion hnone
          | some cell =>
            rw [Option.map_some', hsome]
        · rw [hpos] at he
          have hnone : gen.grid.get_cell r c = none := he
          rw [(place_word_grid_presence gen w slot r c).mpr hnone,
            Option.map_none', hnone]
      · rw [if_neg (fun hcon => hbnd hcon.2)]
        refine place_word_grid_get gen w slot r c ?_
        intro i hi
        by_cases hp : slotPos slot i = (r, c)
        · right
          rw [hp]
          exact fun hcc => hbnd ⟨hcc.1, hcc.2⟩
        · exact Or.inl hp
    · rw [if_neg (fun hcon => hcov hcon.1)]
      refine place_word_grid_get gen w slot r c ?_
      intro i hi
      left
      intro hp
      exact hcov (List.mem_map.mpr ⟨i, List.mem_range.mpr hi, hp⟩)

def cfg0 : GeneratorConfig :=
  { width := 5, height := 5, max_words := 1, min_words := 1,
    symmetry := true, max_attempts := 2, prefer_longer_words := true }

/-- Concrete fixture: a one-word vocabulary. -/
def vocab0 : List (List Char × String) :=
  [("APPLE".data, "fruit")]

/-- Concrete fixture: the generator state after `add_words`. -/
def gen0 : CrosswordGenerator :=
  add_words (CrosswordGenerator.new cfg0) vocab0

/-- Concrete fixture: the crossword produced by `generate 0 gen0` (the run
succeeds; see `C5_generate_min_words_or_exhausted_witness`). -/
def cw0 : Crossword :=
  match generate 0 gen0 with
  | .ok cw => cw
  | .error _ => Crossword.new "" "" 0 0

/-- Witness for C5: the concrete run succeeds and meets the minimum. -/
theorem C5_generate_min_words_or_exhausted_witness :
    gen0.config.min_words ≤ cw0.clues.length :=
  (C5_generate_min_words_or_exhausted 0 gen0).1 cw0 (by rfl)

/-- Witness for C6: the concrete run's first clue answer has length ≥ 3. -/
theorem C6_vocabulary_filtering_witness :
    3 ≤ cw0.clues.headI.answer.length :=
  (C6_vocabulary_filtering vocab0 (some cfg0) 0 cw0 (by rfl) cw0.clues.headI
    (List.mem_of_mem_head? (by rfl))).1.1

/-- Concrete fixture: a 5×5 configuration asking for two crossing words. -/
def cfg1 : GeneratorConfig :=
  { width := 5, height := 5, max_words := 2, min_words := 2,
    symmetry := false, max_attempts := 5, prefer_longer_words := true }

/-- Concrete fixture: a three-word vocabulary. -/
def vocab1 : List (List Char × String) :=
  [("APPLE".data, "a"), ("PEA".data, "b"), ("LET".data, "c")]

/-- Concrete fixture: the crossword produced by seed 4 (APPLE across at
row 3 and PEA down at column 4, crossing at cell (3,4) on the letter E). -/
def cw1 : Crossword :=
  match generate_crossword vocab1 (some cfg1) 4 with
  | .ok cw => cw
  | .error _ => Crossword.new "" "" 0 0

/-- Witness for C1: in the concrete two-word run, the across clue APPLE and
the down clue PEA share cell (3,4) and agree there. -/
theorem C1_intersection_consistency_witness :
    (cw1.clues.getD 0 default).answer.getD 4 'A' =
      (cw1.clues.getD 1 default).answer.getD 1 'A' :=
  C1_intersection_consistency vocab1 (some cfg1) 4 cw1 (by rfl)
    (cw1.clues.getD 0 default) (by decide) (cw1.clues.getD 1 default) (by decide)
    4 1 (3, 4) (by decide) (by decide)

/-- Concrete fixture: the generator state over the three-word vocabulary. -/
def gen1 : CrosswordGenerator :=
  add_words (CrosswordGenerator.new cfg1) vocab1

/-- C8 counterexample: a concrete retry is NOT re-randomized.  Following the
exact state sequence of one `generate` call (seed 4, the three-word
vocabulary), the second attempt's blocked-cell pattern is identical to the
first attempt's, and reshuffling again before a third attempt leaves the
(multi-word) vocabulary ordering exactly as it was — contradicting the
claim that successive attempts use a different blocked pattern and that
each reshuffle changes the ordering. -/
theorem C8_retry_rerandomization_counterexample :
    (reset_grid 4 (shuffle_words
        (attempt_generation (reset_grid 4 gen1)).1)).blocked_positions =
        (reset_grid 4 gen1).blocked_positions ∧
      (shuffle_words (shuffle_words
        (attempt_generation (reset_grid 4 gen1)).1)).word_list =
        (shuffle_words (attempt_generation (reset_grid 4 gen1)).1).word_list ∧
      (shuffle_words (attempt_generation (reset_grid 4 gen1)).1).word_list.length = 3 :=
  ⟨by decide, by rfl, by rfl⟩

/-- Witness for the amended C8: the two successive attempt states of the
concrete run satisfy the equal-configuration hypothesis. -/
theorem C8_retry_determinism_amended_witness :
    (reset_grid 4 gen1).blocked_positions =
      (reset_grid 4 (shuffle_words
        (attempt_generation (reset_grid 4 gen1)).1)).blocked_positions :=
  (C8_retry_determinism_amended 4 gen1
    (shuffle_words (attempt_generation (reset_grid 4 gen1)).1) gen1 (by decide)).1

/-- Concrete fixture: a 3×3 open configuration for the place/remove analysis. -/
def cfg2 : GeneratorConfig :=
  { width := 3, height := 3, max_words := 10, min_words := 1,
    symmetry := false, max_attempts := 1, prefer_longer_words := true }

/-- Concrete fixture: the across word ACE placed at the origin of an empty
3×3 grid. -/
def stA : CrosswordGenerator :=
  place_word (CrosswordGenerator.new cfg2) (WordEntry.new "ACE".data "card")
    (WordSlot.mk 0 0 3 Direction.Across)

/-- Concrete fixture: a down word ART sharing the start cell (0,0) with ACE. -/
def wD : WordEntry := WordEntry.new "ART".data "painting"

/-- C10 counterexample: placing the down word ART at (0,0) — accepted by
`can_place_word` — over the across word ACE and then undoing it does NOT
restore the state: the shared start cell keeps the overwritten clue number,
and `word_starts` loses the entry of the earlier word ACE as well. -/
theorem C10_place_remove_counterexample :
    can_place_word stA wD (WordSlot.mk 0 0 3 Direction.Down) = true ∧
      remove_last_word (place_word stA wD (WordSlot.mk 0 0 3 Direction.Down)) ≠ stA ∧
      (remove_last_word (place_word stA wD
        (WordSlot.mk 0 0 3 Direction.Down))).word_starts ≠ stA.word_starts ∧
      (remove_last_word (place_word stA wD
        (WordSlot.mk 0 0 3 Direction.Down))).grid.get_cell 0 0 ≠
        stA.grid.get_cell 0 0 :=
  ⟨by decide, by decide, by decide, by decide⟩

/-- Witness for the amended C10: placing ACE on the fresh empty grid and
undoing it restores the start map and the origin cell. -/
theorem C10_place_remove_amended_witness :
    (remove_last_word (place_word (CrosswordGenerator.new cfg2)
        (WordEntry.new "ACE".data "card") (WordSlot.mk 0 0 3 Direction.Across))).word_starts =
        (CrosswordGenerator.new cfg2).word_starts ∧
      (remove_last_word (place_word (CrosswordGenerator.new cfg2)
        (WordEntry.new "ACE".data "card")
        (WordSlot.mk 0 0 3 Direction.Across))).grid.get_cell 0 0 =
        (CrosswordGenerator.new cfg2).grid.get_cell 0 0 :=
  have h := C10_place_remove_amended (CrosswordGenerator.new cfg2)
    (WordEntry.new "ACE".data "card") (WordSlot.mk 0 0 3 Direction.Across)
    (by decide) (by decide) (by decide)
  ⟨h.2.1, h.2.2.2 0 0⟩

end Cruciverbal
